import Mathlib

/-!
# ShreadBox: the storage index, the cipher framing and the download path

A shallow embedding of `internal/storage/storage.go`, `internal/encryption/encryption.go`
and the core of `internal/handlers/handlers.go`.

Conventions of the embedding:

* `time.Time` is an `Int` (an instant on a discrete clock); `t.After(u)` is `u < t`.
  Every method that calls `time.Now()` takes the clock value as the argument `now`.
* Go's `error` is `Option String` (`none` is `nil`), a `(value, error)` pair is
  `Except String value`; messages are the ones of the source.
* `map[string]*FileMetadata` is an association list read through `mapGet`; a Go map has
  no duplicate keys, which is the predicate `Storage.WF`.
* The file system the methods act on is the field `disk` of the state; the goroutines
  started by `GetFile` and not yet run are the field `pending`.
* `uuid.New().String()` is the argument `uuid`; the bytes `crypto/rand` delivers are the
  argument `rnd`.
-/

namespace ShreadBox

/-- A byte slice. -/
abbrev Bytes := List UInt8

deriving instance DecidableEq for Except

/-! ## Go maps as association lists -/

/-- Map lookup `m[k]`: the value and whether the key exists. -/
def mapGet {β : Type} (k : String) : List (String × β) → Option β
  | [] => none
  | (k', v) :: rest => if k' = k then some v else mapGet k rest

/-- The builtin `delete(m, k)`. -/
def mapDelete {β : Type} (k : String) (m : List (String × β)) : List (String × β) :=
  m.filter (fun kv => decide (kv.1 ≠ k))

/-- Map assignment `m[k] = v`. -/
def mapSet {β : Type} (k : String) (v : β) (m : List (String × β)) : List (String × β) :=
  (k, v) :: mapDelete k m

/-- The keys of a map. -/
def mapKeys {β : Type} (m : List (String × β)) : List String := m.map Prod.fst

/-! ## models.go -/

/-- The struct `FileMetadata`. -/
structure FileMetadata where
  ID : String
  FileName : String
  FilePath : String
  EncryptionKey : Bytes
  ExpiresAt : Int
  DownloadsLeft : Int
  Message : String
  ContentType : String
  FileSize : Int
  CreatedAt : Int
deriving DecidableEq, Repr

/-! ## The file system (package `os`) -/

/-- Errors of package `os` that the storage code tells apart. -/
inductive OsError where
  | notExist
  | permission
deriving DecidableEq, Repr

/-- The method `Error()` of an `os` error on a path. -/
def OsError.Error (op path : String) : OsError → String
  | .notExist => op ++ " " ++ path ++ ": no such file or directory"
  | .permission => op ++ " " ++ path ++ ": permission denied"

/-- The function `os.IsNotExist`. -/
def OsError.IsNotExist : OsError → Bool
  | .notExist => true
  | .permission => false

/-- The file system: the blobs by path, the paths that cannot be written and the paths
whose removal is refused. -/
structure Disk where
  blobs : List (String × Bytes)
  unwritable : List String
  undeletable : List String
deriving DecidableEq, Repr

/-- The function `os.WriteFile`. -/
def osWriteFile (d : Disk) (path : String) (data : Bytes) : Except OsError Disk :=
  if path ∈ d.unwritable then .error .permission
  else .ok { d with blobs := mapSet path data d.blobs }

/-- The function `os.ReadFile`. -/
def osReadFile (d : Disk) (path : String) : Except OsError Bytes :=
  match mapGet path d.blobs with
  | none => .error .notExist
  | some data => .ok data

/-- The function `os.Remove`. -/
def osRemove (d : Disk) (path : String) : Except OsError Disk :=
  match mapGet path d.blobs with
  | none => .error .notExist
  | some _ =>
    if path ∈ d.undeletable then .error .permission
    else .ok { d with blobs := mapDelete path d.blobs }

/-- The function `filepath.Join` on a directory and a file name that needs no cleaning. -/
def filepathJoin (dir name : String) : String := dir ++ "/" ++ name

/-! ## storage.go -/

/-- The struct `Storage` with the world it acts on: the index `files`, the file system
`disk`, and the deletions that `GetFile` has scheduled and that have not run yet. -/
structure Storage where
  basePath : String
  files : List (String × FileMetadata)
  disk : Disk
  pending : List String
deriving DecidableEq, Repr

/-- The index of a Go map holds each key once. -/
def Storage.WF (s : Storage) : Prop := (mapKeys s.files).Nodup

instance (s : Storage) : Decidable s.WF := by
  unfold Storage.WF; infer_instance

/-- The storage `NewStorage` returns, on a given file system. -/
def NewStorage (basePath : String) (disk : Disk) : Storage :=
  { basePath := basePath, files := [], disk := disk, pending := [] }

/-- The method `SaveFile`: the state after the call, the caller's metadata struct after the call
(it is written through the pointer), and the error. -/
def Storage.SaveFile (s : Storage) (data : Bytes) (metadata : FileMetadata)
    (now : Int) (uuid : String) : Storage × FileMetadata × Option String :=
  let m1 : FileMetadata := if metadata.ID = "" then { metadata with ID := uuid } else metadata
  let m2 : FileMetadata :=
    { m1 with FilePath := filepathJoin s.basePath m1.ID, CreatedAt := now }
  match osWriteFile s.disk m2.FilePath data with
  | .error err => (s, m2, some ("failed to save file: " ++ err.Error "open" m2.FilePath))
  | .ok disk => ({ s with disk := disk, files := mapSet m2.ID m2 s.files }, m2, none)

/-- The method `deleteFile` (the caller holds the lock). -/
def Storage.deleteFile (s : Storage) (id : String) : Storage × Option String :=
  match mapGet id s.files with
  | none => (s, none)
  | some metadata =>
    match osRemove s.disk metadata.FilePath with
    | .error err =>
      if err.IsNotExist then ({ s with files := mapDelete id s.files }, none)
      else (s, some ("failed to delete file: " ++ err.Error "remove" metadata.FilePath))
    | .ok disk => ({ s with disk := disk, files := mapDelete id s.files }, none)

/-- The method `GetFile`. The record it returns is the one the index holds (the same pointer),
so it shows the counter after the decrement. -/
def Storage.GetFile (s : Storage) (id : String) (now : Int) :
    Storage × Except String FileMetadata :=
  match mapGet id s.files with
  | none => (s, .error "file not found")
  | some metadata =>
    if metadata.ExpiresAt < now then
      ((s.deleteFile id).1, .error "file has expired")
    else if metadata.DownloadsLeft ≤ 0 then
      ((s.deleteFile id).1, .error "download limit reached")
    else
      let metadata1 : FileMetadata :=
        { metadata with DownloadsLeft := metadata.DownloadsLeft - 1 }
      let s1 : Storage := { s with files := mapSet id metadata1 s.files }
      let s2 : Storage :=
        if metadata1.DownloadsLeft = 0 then { s1 with pending := s1.pending ++ [id] } else s1
      (s2, .ok metadata1)

/-- The goroutine `GetFile` starts on the last download: it takes the lock and calls
`deleteFile`. The step is enabled when a deletion of `id` is pending. -/
def Storage.runDeferred (s : Storage) (id : String) : Storage :=
  if id ∈ s.pending then { (s.deleteFile id).1 with pending := s.pending.erase id }
  else s

/-- The method `ReadFile`. -/
def Storage.ReadFile (s : Storage) (metadata : FileMetadata) : Except String Bytes :=
  match osReadFile s.disk metadata.FilePath with
  | .error err => .error (err.Error "open" metadata.FilePath)
  | .ok data => .ok data

/-- The condition under which `CleanupExpired` evicts a record. -/
def sweepable (now : Int) (metadata : FileMetadata) : Bool :=
  decide (metadata.ExpiresAt < now) || decide (metadata.DownloadsLeft ≤ 0)

/-- One iteration of the loop of `CleanupExpired`. -/
def Storage.cleanupStep (now : Int) (acc : Storage × Option String)
    (entry : String × FileMetadata) : Storage × Option String :=
  if sweepable now entry.2 then
    match acc.1.deleteFile entry.1 with
    | (s1, some err) => (s1, some err)
    | (s1, none) => (s1, acc.2)
  else acc

/-- The method `CleanupExpired`: the loop ranges over the entries of the index. -/
def Storage.CleanupExpired (s : Storage) (now : Int) : Storage × Option String :=
  s.files.foldl (Storage.cleanupStep now) (s, none)

/-- The method `GetFileMetadata`. -/
def Storage.GetFileMetadata (s : Storage) (id : String) : Except String FileMetadata :=
  match mapGet id s.files with
  | none => .error "file not found"
  | some metadata => .ok metadata

/-! ## encryption.go -/

/-- The constant `KeySize`. -/
def KeySize : Nat := 32

/-- The error value `ErrInvalidKeySize`. -/
def ErrInvalidKeySize : String := "invalid key size: key must be 32 bytes"

/-- The error value `ErrEncryption`. -/
def ErrEncryption : String := "encryption failed"

/-- The error value `ErrDecryption`. -/
def ErrDecryption : String := "decryption failed"

/-- The AEAD that `cipher.NewGCM` builds over an AES block (Go standard library, not code of
the repository): `Seal key nonce plaintext` is the sealed text with its tag and
`Open key nonce sealed` the opened text, or nothing when authentication fails. -/
structure GCM where
  Seal : Bytes → Bytes → Bytes → Bytes
  Open : Bytes → Bytes → Bytes → Option Bytes

/-- The value of `gcm.NonceSize()` for the standard GCM. -/
def NonceSize : Nat := 12

/-- The contract of `cipher.AEAD`: opening what was sealed under the same key and nonce gives
the plaintext back. -/
def GCM.Correct (gcm : GCM) : Prop :=
  ∀ key nonce plaintext : Bytes, key.length = KeySize → nonce.length = NonceSize →
    gcm.Open key nonce (gcm.Seal key nonce plaintext) = some plaintext

/-- The function `aes.NewCipher`: it accepts keys of 16, 24 and 32 bytes. -/
def aesNewCipher (key : Bytes) : Option Bytes :=
  if key.length = 16 ∨ key.length = 24 ∨ key.length = 32 then some key else none

/-- The function `cipher.NewGCM` on an AES block (whose block size is always 16). -/
def cipherNewGCM (block : Bytes) : Option Bytes := some block

/-- The call `io.ReadFull(rand.Reader, buf)` on a buffer of `n` bytes, where `rnd` is what the
entropy source still delivers: the bytes read, or nothing on a read error. -/
def readFull (rnd : Bytes) (n : Nat) : Option Bytes :=
  if n ≤ rnd.length then some (rnd.take n) else none

/-- The function `GenerateKey`. -/
def GenerateKey (rnd : Bytes) : Except String Bytes :=
  match readFull rnd KeySize with
  | none => .error "unexpected EOF"
  | some key => .ok key

/-- The function `Encrypt`. -/
def Encrypt (gcm : GCM) (rnd : Bytes) (data key : Bytes) : Except String Bytes :=
  if key.length ≠ KeySize then .error ErrInvalidKeySize
  else
    match aesNewCipher key with
    | none => .error ErrEncryption
    | some block =>
      match cipherNewGCM block with
      | none => .error ErrEncryption
      | some aead =>
        match readFull rnd NonceSize with
        | none => .error ErrEncryption
        | some nonce => .ok (nonce ++ gcm.Seal aead nonce data)

/-- The function `Decrypt`. -/
def Decrypt (gcm : GCM) (data key : Bytes) : Except String Bytes :=
  if key.length ≠ KeySize then .error ErrInvalidKeySize
  else
    match aesNewCipher key with
    | none => .error ErrDecryption
    | some block =>
      match cipherNewGCM block with
      | none => .error ErrDecryption
      | some aead =>
        if data.length < NonceSize then .error ErrDecryption
        else
          match gcm.Open aead (data.take NonceSize) (data.drop NonceSize) with
          | none => .error ErrDecryption
          | some plaintext => .ok plaintext

/-- The function `EncryptFile`: the key is read from the entropy source first, the nonce
after it. -/
def EncryptFile (gcm : GCM) (rnd : Bytes) (fileData : Bytes) : Except String (Bytes × Bytes) :=
  match GenerateKey rnd with
  | .error err => .error err
  | .ok key =>
    match Encrypt gcm (rnd.drop KeySize) fileData key with
    | .error err => .error err
    | .ok encryptedData => .ok (encryptedData, key)

/-- The function `DecryptFile`. -/
def DecryptFile (gcm : GCM) (encryptedData key : Bytes) : Except String Bytes :=
  Decrypt gcm encryptedData key

/-- A stand-in AEAD for concrete runs: the sealed text is the plaintext followed by a
16-byte tag made of the first key byte; it satisfies `GCM.Correct`. -/
def tagGCM : GCM where
  Seal := fun key _ plaintext => plaintext ++ List.replicate 16 (key.headD 0)
  Open := fun key _ sealed =>
    if 16 ≤ sealed.length ∧ sealed.drop (sealed.length - 16) = List.replicate 16 (key.headD 0)
    then some (sealed.take (sealed.length - 16)) else none

/-! ## handlers.go -/

/-- What the upload handler reads from the request: the uploaded file, and the form values
after `time.ParseDuration` and `strconv.Atoi` (`none` when the parse fails). -/
structure UploadRequest where
  fileName : String
  contentType : String
  fileData : Bytes
  expiryTime : Option Int
  downloadsAllowed : Option Int
  message : String
deriving DecidableEq, Repr

/-- The struct `FileUploadResponse`. -/
structure FileUploadResponse where
  Token : String
  ExpiresAt : Int
  FileName : String
  DownloadURL : String
deriving DecidableEq, Repr

/-- What a handler writes: an error object with a status, the upload response, or the
payload with its content type (the response headers are left out). -/
inductive Response where
  | error (status : Nat) (message : String)
  | uploaded (status : Nat) (body : FileUploadResponse)
  | data (status : Nat) (contentType : String) (body : Bytes)
deriving DecidableEq, Repr

/-- The value of `24 * time.Hour` in nanoseconds. -/
def defaultExpiry : Int := 24 * 3600 * 1000000000

/-- The handler `Upload` from the point where the file has been read. `now` is the clock at
the handler, `nowSave` the clock inside `SaveFile`. -/
def Handler.Upload (gcm : GCM) (s : Storage) (req : UploadRequest) (now nowSave : Int)
    (uuid : String) (rnd : Bytes) : Storage × Response :=
  let duration : Int := match req.expiryTime with
    | none => defaultExpiry
    | some d => d
  let downloads : Int := match req.downloadsAllowed with
    | none => 1
    | some n => if n < 1 then 1 else n
  match EncryptFile gcm rnd req.fileData with
  | .error _ => (s, .error 500 "Encryption failed")
  | .ok (encryptedData, key) =>
    let metadata : FileMetadata :=
      { ID := "", FileName := req.fileName, FilePath := "", EncryptionKey := key,
        ExpiresAt := now + duration, DownloadsLeft := downloads, Message := req.message,
        ContentType := req.contentType, FileSize := req.fileData.length, CreatedAt := 0 }
    match s.SaveFile encryptedData metadata nowSave uuid with
    | (s1, _, some _) => (s1, .error 500 "Failed to save file")
    | (s1, saved, none) =>
      (s1, .uploaded 200
        { Token := saved.ID, ExpiresAt := saved.ExpiresAt, FileName := saved.FileName,
          DownloadURL := "/api/download/" ++ saved.ID })

/-- The handler `Download`. `GetFile` releases the lock before `ReadFile` runs, so the
deletion it scheduled may run in between: `evictionFirst` says whether it does. -/
def Handler.Download (gcm : GCM) (s : Storage) (token : String) (now : Int)
    (evictionFirst : Bool) : Storage × Response :=
  match s.GetFile token now with
  | (s1, .error _) => (s1, .error 404 "File not found or expired")
  | (s1, .ok metadata) =>
    let s2 : Storage := if evictionFirst then s1.runDeferred token else s1
    match s2.ReadFile metadata with
    | .error _ => (s2, .error 500 "Failed to read file")
    | .ok encryptedData =>
      match DecryptFile gcm encryptedData metadata.EncryptionKey with
      | .error _ => (s2, .error 500 "Decryption failed")
      | .ok decryptedData => (s2, .data 200 metadata.ContentType decryptedData)

/-! ## Runs of the index -/

/-- An operation on the index, with the values it reads from its environment. -/
inductive Op where
  | saveFile (data : Bytes) (metadata : FileMetadata) (now : Int) (uuid : String)
  | getFile (id : String) (now : Int)
  | getFileMetadata (id : String)
  | cleanupExpired (now : Int)
  | deferred (id : String)
deriving DecidableEq, Repr

/-- What an operation returns to its caller. -/
inductive Outcome where
  | saved (metadata : FileMetadata) (err : Option String)
  | got (result : Except String FileMetadata)
  | metadata (result : Except String FileMetadata)
  | cleaned (err : Option String)
  | ran
deriving DecidableEq, Repr

/-- The ID under which `SaveFile` stores a record. -/
def savedID (metadata : FileMetadata) (uuid : String) : String :=
  if metadata.ID = "" then uuid else metadata.ID

/-- One operation on the index. -/
def Storage.step (s : Storage) : Op → Storage × Outcome
  | .saveFile data metadata now uuid =>
    let r := s.SaveFile data metadata now uuid
    (r.1, .saved r.2.1 r.2.2)
  | .getFile id now =>
    let r := s.GetFile id now
    (r.1, .got r.2)
  | .getFileMetadata id => (s, .metadata (s.GetFileMetadata id))
  | .cleanupExpired now =>
    let r := s.CleanupExpired now
    (r.1, .cleaned r.2)
  | .deferred id => (s.runDeferred id, .ran)

/-- A sequence of operations run one after the other: the final state and the outcomes. -/
def Storage.run (s : Storage) : List Op → Storage × List Outcome
  | [] => (s, [])
  | op :: ops =>
    let r := s.step op
    let rest := r.1.run ops
    (rest.1, r.2 :: rest.2)

/-- Whether an outcome is a successful `GetFile`. -/
def Outcome.isDownload : Outcome → Bool
  | .got (.ok _) => true
  | _ => false

/-- Whether an operation with its outcome is a successful `GetFile` on `id`. -/
def isDownloadOf (id : String) : Op × Outcome → Bool
  | (.getFile id1 _, .got (.ok _)) => decide (id1 = id)
  | _ => false

/-- The number of `GetFile` calls on `id` that succeed in a run. -/
def Storage.downloads (s : Storage) (id : String) (ops : List Op) : Nat :=
  ((ops.zip (s.run ops).2).filter (isDownloadOf id)).length

/-- The downloads the index still grants on `id`. -/
def Storage.budget (s : Storage) (id : String) : Nat :=
  match mapGet id s.files with
  | none => 0
  | some metadata => metadata.DownloadsLeft.toNat

/-- Whether an operation is a `SaveFile` that stores under `id`. -/
def Op.savesTo (id : String) : Op → Bool
  | .saveFile _ metadata _ uuid => decide (savedID metadata uuid = id)
  | _ => false

/-- Whether an operation is a `SaveFile` of a record with a negative counter. -/
def Op.savesNegative : Op → Bool
  | .saveFile _ metadata _ _ => decide (metadata.DownloadsLeft < 0)
  | _ => false

/-- Every record of the index has a counter that is not negative. -/
def Storage.CountersNonNeg (s : Storage) : Prop :=
  ∀ entry ∈ s.files, 0 ≤ entry.2.DownloadsLeft

/-- The record under `id` is spent: it is gone from the index, or its counter is at most zero
and its deadline is `deadline`. -/
def Storage.Spent (s : Storage) (id : String) (deadline : Int) : Prop :=
  mapGet id s.files = none ∨
    ∃ m, mapGet id s.files = some m ∧ m.DownloadsLeft ≤ 0 ∧ m.ExpiresAt = deadline

/-- An operation that is a `GetFile` on `id` no later than `deadline`, or a deferred deletion
step. -/
def Op.retries (id : String) (deadline : Int) : Op → Bool
  | .getFile id1 now => decide (id1 = id) && decide (now ≤ deadline)
  | .deferred _ => true
  | _ => false

/-- An outcome that is no download: a deferred step, or a `GetFile` that fails with the
exhausted or the not-found error. -/
def Outcome.refused : Outcome → Bool
  | .ran => true
  | .got (.error err) => decide (err = "download limit reached") || decide (err = "file not found")
  | _ => false

/-- The calls `GetFile` on `id` at the clock values `clocks`, one after the other. -/
def getFileCalls (id : String) (clocks : List Int) : List Op := clocks.map (Op.getFile id)

/-- The metadata the handler `Upload` builds for a request, at clock value `now`, around the
key `EncryptFile` returned. -/
def uploadMetadata (req : UploadRequest) (now : Int) (key : Bytes) : FileMetadata :=
  { ID := "", FileName := req.fileName, FilePath := "", EncryptionKey := key,
    ExpiresAt := now + (match req.expiryTime with
      | none => defaultExpiry
      | some d => d),
    DownloadsLeft := (match req.downloadsAllowed with
      | none => 1
      | some n => if n < 1 then 1 else n),
    Message := req.message, ContentType := req.contentType,
    FileSize := req.fileData.length, CreatedAt := 0 }

/-- What the handler `Status` writes: an error object with a status, or the object with the
keys `file_name`, `expires_at`, `downloads_left` and `message`. -/
inductive StatusResponse where
  | error (status : Nat) (message : String)
  | status (status : Nat) (file_name : String) (expires_at : Int) (downloads_left : Int)
      (message : String)
deriving DecidableEq, Repr

/-- The handler `Status`. -/
def Handler.Status (s : Storage) (token : String) : StatusResponse :=
  match s.GetFileMetadata token with
  | .error _ => .error 404 "File not found"
  | .ok metadata =>
    .status 200 metadata.FileName metadata.ExpiresAt metadata.DownloadsLeft metadata.Message

/-! ## domain/file.go and service/file_service.go -/

/-- The struct `File`. -/
structure File where
  ID : String
  Name : String
  Size : Int
  ContentType : String
  Data : Bytes
  EncryptionKey : Bytes
  ExpiresAt : Int
  DownloadsLeft : Int
  Message : String
  CreatedAt : Int
deriving DecidableEq, Repr

/-- The struct `FileStatus`. -/
structure FileStatus where
  FileName : String
  ExpiresAt : Int
  DownloadsLeft : Int
  Message : String
deriving DecidableEq, Repr

/-- The interface `FileRepository`, with the one method `GetStatus` calls. -/
structure FileRepository where
  GetMetadata : String → Except String File

/-- The method `GetStatus` of `fileService`. -/
def fileService.GetStatus (repo : FileRepository) (id : String) : Except String FileStatus :=
  match repo.GetMetadata id with
  | .error err => .error ("failed to get file metadata: " ++ err)
  | .ok file =>
    .ok { FileName := file.Name, ExpiresAt := file.ExpiresAt,
          DownloadsLeft := file.DownloadsLeft, Message := file.Message }

/-! ## cleanup.go -/

/-- The call `time.NewTicker(d)` with which `cleanupRoutine` begins panics when the duration
`d` is not positive. -/
def newTickerPanics (d : Int) : Bool := decide (d ≤ 0)

/-- The struct `Service` with the process around it: the interval, the flag `isRunning`, the
cleanup routines that were started with `go s.cleanupRoutine()`, hold a ticker and wait on
`stopChan`, and whether a cleanup routine has panicked (which ends the process). -/
structure Service where
  interval : Int
  isRunning : Bool
  routines : Nat
  panicked : Bool
deriving DecidableEq, Repr

/-- The function `NewService`. -/
def NewService (interval : Int) : Service :=
  { interval := interval, isRunning := false, routines := 0, panicked := false }

/-- The method `Start`. The routine it launches creates its ticker from `s.interval`: with a
positive interval it is one more routine waiting on `stopChan`, otherwise it panics. -/
def Service.Start (s : Service) : Service :=
  if s.isRunning then s
  else if newTickerPanics s.interval then { s with isRunning := true, panicked := true }
  else { s with isRunning := true, routines := s.routines + 1 }

/-- The method `Stop`. The send on the unbuffered `stopChan` returns once a cleanup routine
receives it, and that routine returns; with no routine to receive, the send never returns
(`none`). -/
def Service.Stop (s : Service) : Option Service :=
  if !s.isRunning then some s
  else if s.routines = 0 then none
  else some { s with isRunning := false, routines := s.routines - 1 }

/-- A call on the cleanup service. -/
inductive Command where
  | start
  | stop
deriving DecidableEq, Repr

/-- A sequence of calls of `Start` and `Stop`, one after the other; `none` when a call does not
return or the routine a call launched panics, which ends the process. -/
def Service.run (s : Service) : List Command → Option Service
  | [] => some s
  | .start :: rest => if s.Start.panicked then none else s.Start.run rest
  | .stop :: rest =>
    match s.Stop with
    | none => none
    | some s1 => s1.run rest

/-- The two status inputs agree on the fields the status shows. -/
def sameStatusFields (a b : FileMetadata) : Prop :=
  a.FileName = b.FileName ∧ a.ExpiresAt = b.ExpiresAt ∧ a.DownloadsLeft = b.DownloadsLeft ∧
    a.Message = b.Message

/-! ## Sample states -/

/-- The metadata the upload path hands to `SaveFile` for a file that may be downloaded once
and that expires at instant 100. -/
def onceRecord : FileMetadata :=
  { ID := "tok", FileName := "hello.txt", FilePath := "", EncryptionKey := [7, 7], ExpiresAt := 100,
    DownloadsLeft := 1, Message := "hi", ContentType := "text/plain", FileSize := 5, CreatedAt := 0 }

/-- The record `onceRecord` as `SaveFile` stores it under `/data` at instant 10. -/
def onceStored : FileMetadata :=
  { onceRecord with FilePath := "/data/tok", CreatedAt := 10 }

/-- The record `onceStored` after its only download. -/
def onceSpent : FileMetadata := { onceStored with DownloadsLeft := 0 }

/-- A file system with nothing on it and no faults. -/
def emptyDisk : Disk := { blobs := [], unwritable := [], undeletable := [] }

/-- The storage that holds `onceRecord` and its blob. -/
def onceStorage : Storage :=
  ((NewStorage "/data" emptyDisk).SaveFile [104, 101, 108, 108, 111] onceRecord 10 "u-1").1

/-- A key of `KeySize` bytes. -/
def sampleKey : Bytes := List.replicate 32 9

/-- What the entropy source delivers in the sample runs: 32 bytes of key, then 12 bytes of
nonce. -/
def sampleEntropy : Bytes := List.replicate 32 9 ++ List.replicate 12 3

/-- The payload "hello". -/
def helloPayload : Bytes := [104, 101, 108, 108, 111]

/-- A second record: three downloads left, but its deadline, instant 30, is early. -/
def earlyRecord : FileMetadata :=
  { ID := "old", FileName := "old.txt", FilePath := "", EncryptionKey := [5], ExpiresAt := 30,
    DownloadsLeft := 3, Message := "", ContentType := "text/plain", FileSize := 2, CreatedAt := 0 }

/-- The storage that holds `onceRecord` and `earlyRecord` with their blobs. -/
def twoStorage : Storage :=
  (onceStorage.SaveFile [1, 2] earlyRecord 11 "u-2").1

/-- The upload of "hello" with one download allowed and a lifetime of one hour. -/
def helloUpload : UploadRequest :=
  { fileName := "hello.txt", contentType := "text/plain", fileData := helloPayload,
    expiryTime := some 3600000000000, downloadsAllowed := some 1, message := "" }

/-- The storage after the upload `helloUpload` at instant 0 into an empty storage; the token
is `u-1`. -/
def helloStorage : Storage :=
  (Handler.Upload tagGCM (NewStorage "/data" emptyDisk) helloUpload 0 0 "u-1" sampleEntropy).1

/-- The storage `onceStorage` on a file system that refuses to remove the blob of `tok`. -/
def stuckStorage : Storage :=
  { onceStorage with disk := { onceStorage.disk with undeletable := ["/data/tok"] } }

/-- A file system on which the blob of `tok` cannot be written. -/
def lockedDisk : Disk := { blobs := [], unwritable := ["/data/tok"], undeletable := [] }

/-- The storage `onceStorage` with another key in its record. -/
def rekeyedStorage : Storage :=
  { onceStorage with files := [("tok", { onceStored with EncryptionKey := [1, 2, 3] })] }

/-! ## Lemmas on maps -/

theorem mapGet_cons {β : Type} (k : String) (kv : String × β) (m : List (String × β)) :
    mapGet k (kv :: m) = if kv.1 = k then some kv.2 else mapGet k m := by
  cases kv; rfl

theorem mapDelete_cons {β : Type} (k : String) (kv : String × β) (m : List (String × β)) :
    mapDelete k (kv :: m) = if kv.1 = k then mapDelete k m else kv :: mapDelete k m := by
  by_cases hk : kv.1 = k <;> simp [mapDelete, List.filter_cons, hk]

theorem mapGet_mapDelete_self {β : Type} (k : String) (m : List (String × β)) :
    mapGet k (mapDelete k m) = none := by
  induction m with
  | nil => rfl
  | cons kv rest ih =>
    rw [mapDelete_cons]
    by_cases hk : kv.1 = k
    · rw [if_pos hk]; exact ih
    · rw [if_neg hk, mapGet_cons, if_neg hk]; exact ih

theorem mapGet_mapDelete_ne {β : Type} {k k1 : String} (hne : k1 ≠ k)
    (m : List (String × β)) : mapGet k1 (mapDelete k m) = mapGet k1 m := by
  induction m with
  | nil => rfl
  | cons kv rest ih =>
    rw [mapDelete_cons, mapGet_cons]
    by_cases hk : kv.1 = k
    · have hk1 : ¬ kv.1 = k1 := fun h => hne (h.symm.trans hk)
      rw [if_pos hk, if_neg hk1]; exact ih
    · rw [if_neg hk, mapGet_cons]
      by_cases hk1 : kv.1 = k1
      · rw [if_pos hk1, if_pos hk1]
      · rw [if_neg hk1, if_neg hk1]; exact ih

theorem mapGet_mapSet_self {β : Type} (k : String) (v : β) (m : List (String × β)) :
    mapGet k (mapSet k v m) = some v := by
  simp [mapSet, mapGet]

theorem mapGet_mapSet_ne {β : Type} {k k1 : String} (hne : k1 ≠ k) (v : β)
    (m : List (String × β)) : mapGet k1 (mapSet k v m) = mapGet k1 m := by
  have hk : ¬ k = k1 := fun h => hne h.symm
  rw [mapSet, mapGet_cons, if_neg hk, mapGet_mapDelete_ne hne]

theorem mapGet_mapDelete_some {β : Type} {k k1 : String} {v : β} {m : List (String × β)}
    (h : mapGet k1 (mapDelete k m) = some v) : mapGet k1 m = some v := by
  by_cases hne : k1 = k
  · subst hne
    rw [mapGet_mapDelete_self] at h
    cases h
  · rwa [mapGet_mapDelete_ne hne] at h

theorem mapGet_mapDelete_none {β : Type} {k k1 : String} {m : List (String × β)}
    (h : mapGet k1 m = none) : mapGet k1 (mapDelete k m) = none := by
  by_cases hne : k1 = k
  · subst hne
    exact mapGet_mapDelete_self _ _
  · rwa [mapGet_mapDelete_ne hne]

/-! ## Lemmas on `deleteFile` -/

/-- The four ways `deleteFile` can go. -/
theorem deleteFile_cases (s : Storage) (id : String) :
    (mapGet id s.files = none ∧ s.deleteFile id = (s, none)) ∨
    (∃ md, mapGet id s.files = some md ∧ osRemove s.disk md.FilePath = .error .notExist ∧
      s.deleteFile id = ({ s with files := mapDelete id s.files }, none)) ∨
    (∃ md, mapGet id s.files = some md ∧ osRemove s.disk md.FilePath = .error .permission ∧
      s.deleteFile id =
        (s, some ("failed to delete file: " ++ OsError.permission.Error "remove" md.FilePath))) ∨
    (∃ md d, mapGet id s.files = some md ∧ osRemove s.disk md.FilePath = .ok d ∧
      s.deleteFile id = ({ s with disk := d, files := mapDelete id s.files }, none)) := by
  cases hg : mapGet id s.files with
  | none => left; exact ⟨rfl, by simp [Storage.deleteFile, hg]⟩
  | some md =>
    right
    cases hr : osRemove s.disk md.FilePath with
    | error err =>
      cases err
      · left; exact ⟨md, rfl, hr, by simp [Storage.deleteFile, hg, hr, OsError.IsNotExist]⟩
      · right; left
        exact ⟨md, rfl, hr, by simp [Storage.deleteFile, hg, hr, OsError.IsNotExist]⟩
    | ok d =>
      right; right
      exact ⟨md, d, rfl, hr, by simp [Storage.deleteFile, hg, hr]⟩

/-- The index after `deleteFile` is the index before, with or without the entry of `id`. -/
theorem deleteFile_files (s : Storage) (id : String) :
    (s.deleteFile id).1.files = s.files ∨ (s.deleteFile id).1.files = mapDelete id s.files := by
  rcases deleteFile_cases s id with ⟨_, h⟩ | ⟨_, _, _, h⟩ | ⟨_, _, _, h⟩ | ⟨_, _, _, _, h⟩ <;>
    simp [h]

/-- The call `deleteFile` changes no record: what the index holds afterwards it held before. -/
theorem deleteFile_get_some {s : Storage} {id id1 : String} {m : FileMetadata}
    (h : mapGet id1 (s.deleteFile id).1.files = some m) : mapGet id1 s.files = some m := by
  rcases deleteFile_files s id with hf | hf
  · rwa [hf] at h
  · rw [hf] at h
    exact mapGet_mapDelete_some h

theorem deleteFile_get_ne (s : Storage) {id id1 : String} (hne : id1 ≠ id) :
    mapGet id1 (s.deleteFile id).1.files = mapGet id1 s.files := by
  rcases deleteFile_files s id with hf | hf
  · rw [hf]
  · rw [hf, mapGet_mapDelete_ne hne]

/-- When `deleteFile` returns no error the ID is gone from the index. -/
theorem deleteFile_ok_get (s : Storage) (id : String) (hok : (s.deleteFile id).2 = none) :
    mapGet id (s.deleteFile id).1.files = none := by
  rcases deleteFile_cases s id with ⟨hg, h⟩ | ⟨_, _, _, h⟩ | ⟨_, _, _, h⟩ | ⟨_, _, _, _, h⟩
  · rw [h]; exact hg
  · rw [h]; exact mapGet_mapDelete_self _ _
  · rw [h] at hok; cases hok
  · rw [h]; exact mapGet_mapDelete_self _ _

theorem deleteFile_pending (s : Storage) (id : String) :
    (s.deleteFile id).1.pending = s.pending := by
  rcases deleteFile_cases s id with ⟨_, h⟩ | ⟨_, _, _, h⟩ | ⟨_, _, _, h⟩ | ⟨_, _, _, _, h⟩ <;>
    simp [h]

/-! ## Lemmas on `GetFile` and `GetFileMetadata` -/

theorem getFile_absent (s : Storage) (id : String) (now : Int) (h : mapGet id s.files = none) :
    s.GetFile id now = (s, .error "file not found") := by
  simp [Storage.GetFile, h]

theorem getFileMetadata_absent (s : Storage) (id : String) (h : mapGet id s.files = none) :
    s.GetFileMetadata id = .error "file not found" := by
  simp [Storage.GetFileMetadata, h]

theorem getFile_expired (s : Storage) (id : String) (now : Int) (md : FileMetadata)
    (h : mapGet id s.files = some md) (hexp : md.ExpiresAt < now) :
    s.GetFile id now = ((s.deleteFile id).1, .error "file has expired") := by
  simp [Storage.GetFile, h, hexp]

theorem getFile_exhausted (s : Storage) (id : String) (now : Int) (md : FileMetadata)
    (h : mapGet id s.files = some md) (hnow : now ≤ md.ExpiresAt) (hz : md.DownloadsLeft ≤ 0) :
    s.GetFile id now = ((s.deleteFile id).1, .error "download limit reached") := by
  simp [Storage.GetFile, h, not_lt.mpr hnow, hz]

theorem getFile_live (s : Storage) (id : String) (now : Int) (md : FileMetadata)
    (h : mapGet id s.files = some md) (hnow : now ≤ md.ExpiresAt) (hn : 1 ≤ md.DownloadsLeft) :
    s.GetFile id now =
      (if md.DownloadsLeft - 1 = 0 then
          { s with files := mapSet id { md with DownloadsLeft := md.DownloadsLeft - 1 } s.files,
                   pending := s.pending ++ [id] }
        else
          { s with files := mapSet id { md with DownloadsLeft := md.DownloadsLeft - 1 } s.files },
       .ok { md with DownloadsLeft := md.DownloadsLeft - 1 }) := by
  have hz : ¬ md.DownloadsLeft ≤ 0 := by omega
  simp [Storage.GetFile, h, not_lt.mpr hnow, hz]

theorem getFile_get_ne (s : Storage) (id : String) (now : Int) {id1 : String} (hne : id1 ≠ id) :
    mapGet id1 (s.GetFile id now).1.files = mapGet id1 s.files := by
  cases hg : mapGet id s.files with
  | none => rw [getFile_absent s id now hg]
  | some md =>
    by_cases hexp : md.ExpiresAt < now
    · rw [getFile_expired s id now md hg hexp]
      exact deleteFile_get_ne s hne
    · have hnow : now ≤ md.ExpiresAt := not_lt.mp hexp
      by_cases hz : md.DownloadsLeft ≤ 0
      · rw [getFile_exhausted s id now md hg hnow hz]
        exact deleteFile_get_ne s hne
      · have hn : 1 ≤ md.DownloadsLeft := by omega
        rw [getFile_live s id now md hg hnow hn]
        by_cases h0 : md.DownloadsLeft - 1 = 0
        · simp only [if_pos h0]; exact mapGet_mapSet_ne hne _ _
        · simp only [if_neg h0]; exact mapGet_mapSet_ne hne _ _

theorem getFile_live_result (s : Storage) (id : String) (now : Int) (md : FileMetadata)
    (h : mapGet id s.files = some md) (hnow : now ≤ md.ExpiresAt) (hn : 1 ≤ md.DownloadsLeft) :
    (s.GetFile id now).2 = .ok { md with DownloadsLeft := md.DownloadsLeft - 1 } := by
  rw [getFile_live s id now md h hnow hn]

theorem getFile_live_stored (s : Storage) (id : String) (now : Int) (md : FileMetadata)
    (h : mapGet id s.files = some md) (hnow : now ≤ md.ExpiresAt) (hn : 1 ≤ md.DownloadsLeft) :
    mapGet id (s.GetFile id now).1.files =
      some { md with DownloadsLeft := md.DownloadsLeft - 1 } := by
  rw [getFile_live s id now md h hnow hn]
  by_cases h0 : md.DownloadsLeft - 1 = 0
  · simp only [if_pos h0]; exact mapGet_mapSet_self _ _ _
  · simp only [if_neg h0]; exact mapGet_mapSet_self _ _ _

/-! ## Single calls of `GetFile` -/

/-- C3. For a stored record and a clock value strictly after its `ExpiresAt`, `GetFile` fails
with "file has expired" whatever `DownloadsLeft` is; no record of the index is changed (so no
counter is decremented); and when `deleteFile` reports no error the ID is gone from the index,
so that `GetFileMetadata` and `GetFile` (at any clock value) on the state that results fail
with "file not found". -/
theorem getFile_past_deadline (s : Storage) (id : String) (md : FileMetadata) (now : Int)
    (hstored : mapGet id s.files = some md) (hpast : md.ExpiresAt < now) :
    (s.GetFile id now).2 = .error "file has expired" ∧
    (∀ id1 m, mapGet id1 (s.GetFile id now).1.files = some m → mapGet id1 s.files = some m) ∧
    ((s.deleteFile id).2 = none →
      mapGet id (s.GetFile id now).1.files = none ∧
      (s.GetFile id now).1.GetFileMetadata id = .error "file not found" ∧
      ∀ later, ((s.GetFile id now).1.GetFile id later).2 = .error "file not found") := by
  rw [getFile_expired s id now md hstored hpast]
  refine ⟨rfl, fun id1 m h => deleteFile_get_some h, fun hok => ?_⟩
  have hgone : mapGet id (s.deleteFile id).1.files = none := deleteFile_ok_get s id hok
  refine ⟨hgone, getFileMetadata_absent _ _ hgone, fun later => ?_⟩
  rw [getFile_absent _ id later hgone]

/-- C7. For a stored record with `now` not after `ExpiresAt` and `DownloadsLeft = n ≥ 1`,
`GetFile` succeeds, returns the stored record with `DownloadsLeft` set to `n - 1` and every
other field as stored, leaves that same record in the index, and leaves the entry of every
other ID as it was. -/
theorem getFile_decrements (s : Storage) (id : String) (md : FileMetadata) (now : Int)
    (hstored : mapGet id s.files = some md) (hlive : now ≤ md.ExpiresAt)
    (hleft : 1 ≤ md.DownloadsLeft) :
    (s.GetFile id now).2 = .ok { md with DownloadsLeft := md.DownloadsLeft - 1 } ∧
    mapGet id (s.GetFile id now).1.files =
      some { md with DownloadsLeft := md.DownloadsLeft - 1 } ∧
    (∀ id1, id1 ≠ id → mapGet id1 (s.GetFile id now).1.files = mapGet id1 s.files) := by
  refine ⟨?_, ?_, fun id1 hne => getFile_get_ne s id now hne⟩
  · rw [getFile_live s id now md hstored hlive hleft]
  · rw [getFile_live s id now md hstored hlive hleft]
    by_cases h0 : md.DownloadsLeft - 1 = 0
    · simp only [if_pos h0]; exact mapGet_mapSet_self _ _ _
    · simp only [if_neg h0]; exact mapGet_mapSet_self _ _ _

theorem runDeferred_files (s : Storage) (id : String) :
    (s.runDeferred id).files = s.files ∨ (s.runDeferred id).files = (s.deleteFile id).1.files := by
  unfold Storage.runDeferred
  by_cases hp : id ∈ s.pending
  · right; simp [hp]
  · left; simp [hp]

theorem getFile_past_deadline_witness :
    (mapGet "tok" onceStorage.files = some onceStored ∧ onceStored.ExpiresAt < 101) ∧
    (onceStorage.GetFile "tok" 101).2 = .error "file has expired" ∧
    mapGet "tok" (onceStorage.GetFile "tok" 101).1.files = none :=
  ⟨⟨by decide, by decide⟩,
    (getFile_past_deadline onceStorage "tok" onceStored 101 (by decide) (by decide)).1,
    ((getFile_past_deadline onceStorage "tok" onceStored 101 (by decide) (by decide)).2.2
      (by decide)).1⟩

theorem getFile_decrements_witness :
    (mapGet "tok" onceStorage.files = some onceStored ∧ (100 : Int) ≤ onceStored.ExpiresAt ∧
      1 ≤ onceStored.DownloadsLeft) ∧
    (onceStorage.GetFile "tok" 100).2 =
      .ok { onceStored with DownloadsLeft := onceStored.DownloadsLeft - 1 } :=
  ⟨⟨by decide, by decide, by decide⟩,
    (getFile_decrements onceStorage "tok" onceStored 100 (by decide) (by decide) (by decide)).1⟩

/-- C6, as stated, fails: at a clock value equal to `ExpiresAt` the call `GetFile` on a record
with a download left does not fail with the expired error and does not evict the record. -/
theorem getFile_at_deadline_succeeds :
    mapGet "tok" onceStorage.files = some onceStored ∧ onceStored.ExpiresAt = 100 ∧
    (onceStorage.GetFile "tok" 100).2 = .ok onceSpent ∧
    (onceStorage.GetFile "tok" 100).2 ≠ .error "file has expired" ∧
    mapGet "tok" (onceStorage.GetFile "tok" 100).1.files = some onceSpent := by
  decide

/-- C6, amended. A record is dead as soon as `now > ExpiresAt`: at every clock value strictly
after `ExpiresAt`, `GetFile` fails with the expired error regardless of `DownloadsLeft`, and
the record is evicted when `deleteFile` reports no error; at the clock value equal to
`ExpiresAt` the record is still live, and `GetFile` succeeds when a download is left. -/
theorem getFile_deadline_is_strict (s : Storage) (id : String) (md : FileMetadata) (now : Int)
    (hstored : mapGet id s.files = some md) :
    (md.ExpiresAt < now →
      (s.GetFile id now).2 = .error "file has expired" ∧
      ((s.deleteFile id).2 = none → mapGet id (s.GetFile id now).1.files = none)) ∧
    (now = md.ExpiresAt → 1 ≤ md.DownloadsLeft →
      (s.GetFile id now).2 = .ok { md with DownloadsLeft := md.DownloadsLeft - 1 }) := by
  constructor
  · intro hpast
    rw [getFile_expired s id now md hstored hpast]
    exact ⟨rfl, fun hok => deleteFile_ok_get s id hok⟩
  · intro heq hleft
    rw [getFile_live s id now md hstored (le_of_eq heq) hleft]

theorem getFile_deadline_is_strict_witness :
    mapGet "tok" onceStorage.files = some onceStored ∧
    (onceStorage.GetFile "tok" 101).2 = .error "file has expired" ∧
    (onceStorage.GetFile "tok" 100).2 =
      .ok { onceStored with DownloadsLeft := onceStored.DownloadsLeft - 1 } :=
  ⟨by decide,
    ((getFile_deadline_is_strict onceStorage "tok" onceStored 101 (by decide)).1 (by decide)).1,
    (getFile_deadline_is_strict onceStorage "tok" onceStored 100 (by decide)).2
      (by decide) (by decide)⟩

/-- C5, as stated, fails: after the `GetFile` that brings `DownloadsLeft` to zero, the record
is still in the index; `GetFileMetadata` returns it with `DownloadsLeft = 0`, and `GetFile`
fails with "download limit reached", not with "file not found". -/
theorem exhausted_record_still_indexed :
    (onceStorage.GetFile "tok" 50).2 = .ok onceSpent ∧
    onceSpent.DownloadsLeft = 0 ∧
    (onceStorage.GetFile "tok" 50).1.GetFileMetadata "tok" = .ok onceSpent ∧
    (onceStorage.GetFile "tok" 50).1.GetFileMetadata "tok" ≠ .error "file not found" ∧
    ((onceStorage.GetFile "tok" 50).1.GetFile "tok" 50).2 = .error "download limit reached" ∧
    ((onceStorage.GetFile "tok" 50).1.GetFile "tok" 50).2 ≠ .error "file not found" := by
  decide

/-- C5, amended. When a successful `GetFile` brings `DownloadsLeft` to zero, the record is not
evicted within that call: its deletion is scheduled. In the state `GetFile` returns in, the
record is in the index with `DownloadsLeft = 0`, `GetFileMetadata` returns it, and `GetFile`
fails with "download limit reached" while the deadline has not passed. Once the scheduled
deletion has run and `deleteFile` reported no error, `GetFileMetadata` and `GetFile` on that ID
both fail with "file not found". -/
theorem final_getFile_defers_eviction (s : Storage) (id : String) (md : FileMetadata)
    (now : Int) (hstored : mapGet id s.files = some md) (hlive : now ≤ md.ExpiresAt)
    (hone : md.DownloadsLeft = 1) :
    (s.GetFile id now).2 = .ok { md with DownloadsLeft := 0 } ∧
    id ∈ (s.GetFile id now).1.pending ∧
    (s.GetFile id now).1.GetFileMetadata id = .ok { md with DownloadsLeft := 0 } ∧
    (∀ later, later ≤ md.ExpiresAt →
      ((s.GetFile id now).1.GetFile id later).2 = .error "download limit reached") ∧
    (((s.GetFile id now).1.deleteFile id).2 = none →
      ((s.GetFile id now).1.runDeferred id).GetFileMetadata id = .error "file not found" ∧
      ∀ later, (((s.GetFile id now).1.runDeferred id).GetFile id later).2 =
        .error "file not found") := by
  have hleft : 1 ≤ md.DownloadsLeft := by omega
  have h0 : md.DownloadsLeft - 1 = 0 := by omega
  have hget : mapGet id (s.GetFile id now).1.files = some { md with DownloadsLeft := 0 } := by
    have h := getFile_live_stored s id now md hstored hlive hleft
    rwa [h0] at h
  have hpend : id ∈ (s.GetFile id now).1.pending := by
    rw [getFile_live s id now md hstored hlive hleft]
    simp [h0]
  refine ⟨?_, hpend, ?_, ?_, ?_⟩
  · rw [getFile_live s id now md hstored hlive hleft, h0]
  · simp [Storage.GetFileMetadata, hget]
  · intro later hlater
    rw [getFile_exhausted _ id later _ hget hlater (le_refl _)]
  · intro hok
    have hgone : mapGet id ((s.GetFile id now).1.runDeferred id).files = none := by
      unfold Storage.runDeferred
      rw [if_pos hpend]
      exact deleteFile_ok_get _ id hok
    refine ⟨getFileMetadata_absent _ _ hgone, fun later => ?_⟩
    rw [getFile_absent _ id later hgone]

theorem final_getFile_defers_eviction_witness :
    (mapGet "tok" onceStorage.files = some onceStored ∧ (50 : Int) ≤ onceStored.ExpiresAt ∧
      onceStored.DownloadsLeft = 1) ∧
    (onceStorage.GetFile "tok" 50).1.GetFileMetadata "tok" =
      .ok { onceStored with DownloadsLeft := 0 } ∧
    ((onceStorage.GetFile "tok" 50).1.runDeferred "tok").GetFileMetadata "tok" =
      .error "file not found" :=
  ⟨⟨by decide, by decide, by decide⟩,
    (final_getFile_defers_eviction onceStorage "tok" onceStored 50
      (by decide) (by decide) (by decide)).2.2.1,
    ((final_getFile_defers_eviction onceStorage "tok" onceStored 50
      (by decide) (by decide) (by decide)).2.2.2.2 (by decide)).1⟩

/-! ## What every operation preserves -/

theorem mem_mapDelete {β : Type} {k : String} {m : List (String × β)} {kv : String × β}
    (h : kv ∈ mapDelete k m) : kv ∈ m :=
  (List.mem_filter.mp h).1

theorem cleanupStep_fst (now : Int) (acc : Storage × Option String)
    (entry : String × FileMetadata) :
    (Storage.cleanupStep now acc entry).1 =
      if sweepable now entry.2 then (acc.1.deleteFile entry.1).1 else acc.1 := by
  unfold Storage.cleanupStep
  by_cases hsw : sweepable now entry.2 = true
  · rw [if_pos hsw, if_pos hsw]
    rcases hd : acc.1.deleteFile entry.1 with ⟨s1, _ | err⟩ <;> rfl
  · rw [if_neg hsw, if_neg hsw]

/-- A property of the state that `deleteFile` preserves is preserved by the sweep. -/
theorem cleanup_fold_preserves (P : Storage → Prop)
    (hdel : ∀ s id, P s → P (s.deleteFile id).1) (now : Int) :
    ∀ (entries : List (String × FileMetadata)) (acc : Storage × Option String),
      P acc.1 → P (entries.foldl (Storage.cleanupStep now) acc).1 := by
  intro entries
  induction entries with
  | nil => intro acc h; exact h
  | cons entry rest ih =>
    intro acc h
    rw [List.foldl_cons]
    apply ih
    rw [cleanupStep_fst]
    by_cases hsw : sweepable now entry.2 = true
    · rw [if_pos hsw]; exact hdel _ _ h
    · rw [if_neg hsw]; exact h

theorem cleanupExpired_preserves (P : Storage → Prop)
    (hdel : ∀ s id, P s → P (s.deleteFile id).1) (s : Storage) (now : Int) (h : P s) :
    P (s.CleanupExpired now).1 :=
  cleanup_fold_preserves P hdel now s.files (s, none) h

theorem runDeferred_preserves (P : Storage → Prop)
    (hdel : ∀ s id, P s → P (s.deleteFile id).1)
    (hpend : ∀ (s : Storage) pending, P s → P { s with pending := pending })
    (s : Storage) (id : String) (h : P s) : P (s.runDeferred id) := by
  unfold Storage.runDeferred
  by_cases hp : id ∈ s.pending
  · rw [if_pos hp]; exact hpend _ _ (hdel _ _ h)
  · rw [if_neg hp]; exact h

/-- The index after `SaveFile`. -/
theorem saveFile_files (s : Storage) (data : Bytes) (metadata : FileMetadata) (now : Int)
    (uuid : String) :
    (s.SaveFile data metadata now uuid).1.files = s.files ∨
    (s.SaveFile data metadata now uuid).1.files =
      mapSet (savedID metadata uuid) (s.SaveFile data metadata now uuid).2.1 s.files := by
  unfold Storage.SaveFile savedID
  by_cases hid : metadata.ID = "" <;>
    simp only [hid, if_true, if_false] <;>
    (split <;> simp)

theorem saveFile_record (s : Storage) (data : Bytes) (metadata : FileMetadata) (now : Int)
    (uuid : String) :
    (s.SaveFile data metadata now uuid).2.1 =
      { metadata with ID := savedID metadata uuid,
                      FilePath := filepathJoin s.basePath (savedID metadata uuid),
                      CreatedAt := now } := by
  unfold Storage.SaveFile savedID
  by_cases hid : metadata.ID = "" <;>
    simp only [hid, if_true, if_false] <;>
    (split <;> simp)

/-- The index after `GetFile`. -/
theorem getFile_files (s : Storage) (id : String) (now : Int) :
    (s.GetFile id now).1.files = s.files ∨
    (s.GetFile id now).1.files = mapDelete id s.files ∨
    ∃ md, mapGet id s.files = some md ∧ 1 ≤ md.DownloadsLeft ∧
      (s.GetFile id now).2 = .ok { md with DownloadsLeft := md.DownloadsLeft - 1 } ∧
      (s.GetFile id now).1.files =
        mapSet id { md with DownloadsLeft := md.DownloadsLeft - 1 } s.files := by
  cases hg : mapGet id s.files with
  | none => left; rw [getFile_absent s id now hg]
  | some md =>
    by_cases hexp : md.ExpiresAt < now
    · rw [getFile_expired s id now md hg hexp]
      rcases deleteFile_files s id with h | h
      · left; exact h
      · right; left; exact h
    · have hnow : now ≤ md.ExpiresAt := not_lt.mp hexp
      by_cases hz : md.DownloadsLeft ≤ 0
      · rw [getFile_exhausted s id now md hg hnow hz]
        rcases deleteFile_files s id with h | h
        · left; exact h
        · right; left; exact h
      · have hn : 1 ≤ md.DownloadsLeft := by omega
        right; right
        refine ⟨md, rfl, hn, ?_, ?_⟩
        · rw [getFile_live s id now md hg hnow hn]
        · rw [getFile_live s id now md hg hnow hn]
          by_cases h0 : md.DownloadsLeft - 1 = 0
          · simp only [if_pos h0]
          · simp only [if_neg h0]

/-- A failed `GetFile` changes no record. -/
theorem getFile_error_get_some {s : Storage} {id : String} {now : Int} {err : String}
    (herr : (s.GetFile id now).2 = .error err) {id1 : String} {m : FileMetadata}
    (h : mapGet id1 (s.GetFile id now).1.files = some m) : mapGet id1 s.files = some m := by
  rcases getFile_files s id now with hf | hf | ⟨md, _, _, hok, _⟩
  · rwa [hf] at h
  · rw [hf] at h; exact mapGet_mapDelete_some h
  · rw [hok] at herr; cases herr

/-! ## The download budget -/

theorem budget_congr {s s1 : Storage} {id : String}
    (h : mapGet id s1.files = mapGet id s.files) : s1.budget id = s.budget id := by
  unfold Storage.budget; rw [h]

theorem budget_le {s s1 : Storage} {id : String}
    (h : ∀ m, mapGet id s1.files = some m → mapGet id s.files = some m) :
    s1.budget id ≤ s.budget id := by
  unfold Storage.budget
  cases h1 : mapGet id s1.files with
  | none => exact Nat.zero_le _
  | some m => rw [h m h1]

theorem cleanupExpired_get_some {s : Storage} {now : Int} {id : String} {m : FileMetadata}
    (h : mapGet id (s.CleanupExpired now).1.files = some m) : mapGet id s.files = some m :=
  cleanupExpired_preserves (fun s1 => ∀ m, mapGet id s1.files = some m → mapGet id s.files = some m)
    (fun _ _ hp m hm => hp m (deleteFile_get_some hm)) s now (fun _ hm => hm) m h

theorem runDeferred_get_some {s : Storage} {id1 id : String} {m : FileMetadata}
    (h : mapGet id (s.runDeferred id1).files = some m) : mapGet id s.files = some m :=
  runDeferred_preserves (fun s1 => ∀ m, mapGet id s1.files = some m → mapGet id s.files = some m)
    (fun _ _ hp m hm => hp m (deleteFile_get_some hm)) (fun _ _ hp => hp) s id1
    (fun _ hm => hm) m h

theorem saveFile_get_ne (s : Storage) (data : Bytes) (metadata : FileMetadata) (now : Int)
    (uuid : String) {id : String} (hne : savedID metadata uuid ≠ id) :
    mapGet id (s.SaveFile data metadata now uuid).1.files = mapGet id s.files := by
  rcases saveFile_files s data metadata now uuid with hf | hf
  · rw [hf]
  · rw [hf]; exact mapGet_mapSet_ne (fun h => hne h.symm) _ _

/-- One operation: a successful `GetFile` on `id` costs one unit of the budget of `id`, and no
operation other than a `SaveFile` under `id` raises it. -/
theorem step_budget (s : Storage) (id : String) (op : Op) (hop : op.savesTo id = false) :
    (isDownloadOf id (op, (s.step op).2)).toNat + (s.step op).1.budget id ≤ s.budget id := by
  cases op with
  | saveFile data metadata now uuid =>
    have hne : savedID metadata uuid ≠ id := by simpa [Op.savesTo] using hop
    have hb := budget_congr (saveFile_get_ne s data metadata now uuid hne)
    simp only [Storage.step, isDownloadOf]
    simp [hb]
  | getFile id1 now =>
    simp only [Storage.step]
    have key : ∀ r, s.GetFile id1 now = r →
        (isDownloadOf id (Op.getFile id1 now, Outcome.got r.2)).toNat + r.1.budget id ≤
          s.budget id := by
      intro r hr
      by_cases hid : id1 = id
      · subst hid
        cases hg : mapGet id1 s.files with
        | none =>
          rw [getFile_absent s id1 now hg] at hr
          subst hr
          simp [isDownloadOf]
        | some md =>
          by_cases hexp : md.ExpiresAt < now
          · rw [getFile_expired s id1 now md hg hexp] at hr
            subst hr
            have hb : (s.deleteFile id1).1.budget id1 ≤ s.budget id1 :=
              budget_le (fun m hm => deleteFile_get_some hm)
            simpa [isDownloadOf] using hb
          · have hnow : now ≤ md.ExpiresAt := not_lt.mp hexp
            by_cases hz : md.DownloadsLeft ≤ 0
            · rw [getFile_exhausted s id1 now md hg hnow hz] at hr
              subst hr
              have hb : (s.deleteFile id1).1.budget id1 ≤ s.budget id1 :=
                budget_le (fun m hm => deleteFile_get_some hm)
              simpa [isDownloadOf] using hb
            · have hn : 1 ≤ md.DownloadsLeft := by omega
              have hnew := getFile_live_stored s id1 now md hg hnow hn
              have hres := getFile_live_result s id1 now md hg hnow hn
              rw [hr] at hnew hres
              have h1 : r.1.budget id1 = (md.DownloadsLeft - 1).toNat := by
                unfold Storage.budget; rw [hnew]
              have h2 : s.budget id1 = md.DownloadsLeft.toNat := by
                unfold Storage.budget; rw [hg]
              rw [hres, h1, h2]
              simp only [isDownloadOf, decide_True, Bool.toNat_true]
              omega
      · have hb := budget_congr (getFile_get_ne s id1 now (fun h => hid h.symm))
        rw [hr] at hb
        rw [hb]
        rcases r with ⟨s1, _ | m⟩ <;> simp [isDownloadOf, hid]
    exact key _ rfl
  | getFileMetadata id1 => simp [Storage.step, isDownloadOf]
  | cleanupExpired now =>
    have hb : (s.CleanupExpired now).1.budget id ≤ s.budget id :=
      budget_le (fun m hm => cleanupExpired_get_some hm)
    simpa [Storage.step, isDownloadOf] using hb
  | deferred id1 =>
    have hb : (s.runDeferred id1).budget id ≤ s.budget id :=
      budget_le (fun m hm => runDeferred_get_some hm)
    simpa [Storage.step, isDownloadOf] using hb

theorem downloads_cons (s : Storage) (id : String) (op : Op) (ops : List Op) :
    s.downloads id (op :: ops) =
      (isDownloadOf id (op, (s.step op).2)).toNat + (s.step op).1.downloads id ops := by
  unfold Storage.downloads
  simp only [Storage.run, List.zip_cons_cons, List.filter_cons]
  by_cases h : isDownloadOf id (op, (s.step op).2) = true
  · simp [h, Nat.add_comm]
  · simp [h]

theorem run_budget (id : String) :
    ∀ (ops : List Op) (s : Storage), (∀ op ∈ ops, op.savesTo id = false) →
      s.downloads id ops + (s.run ops).1.budget id ≤ s.budget id := by
  intro ops
  induction ops with
  | nil => intro s _; simp [Storage.downloads, Storage.run]
  | cons op rest ih =>
    intro s hops
    have h1 := step_budget s id op (hops op (List.mem_cons_self _ _))
    have h2 := ih (s.step op).1 (fun o ho => hops o (List.mem_cons_of_mem _ ho))
    rw [downloads_cons]
    simp only [Storage.run]
    omega

/-- C1. For a record stored under `id` with `DownloadsLeft = n ≥ 0` and every finite sequence
of index operations at arbitrary clock values (`GetFile` on any ID, `GetFileMetadata`,
`CleanupExpired`, deferred deletion steps, and `SaveFile` under other IDs), the number of
`GetFile` calls on `id` that succeed is at most `n`. -/
theorem downloads_at_most_counter (s : Storage) (id : String) (md : FileMetadata)
    (hstored : mapGet id s.files = some md) (hn : 0 ≤ md.DownloadsLeft) (ops : List Op)
    (hops : ∀ op ∈ ops, op.savesTo id = false) :
    (s.downloads id ops : Int) ≤ md.DownloadsLeft := by
  have h := run_budget id ops s hops
  have hb : s.budget id = md.DownloadsLeft.toNat := by
    unfold Storage.budget; rw [hstored]
  rw [hb] at h
  omega

theorem downloads_at_most_counter_witness :
    (mapGet "tok" onceStorage.files = some onceStored ∧ 0 ≤ onceStored.DownloadsLeft) ∧
    (∀ op ∈ [Op.getFile "tok" 20, .getFileMetadata "tok", .saveFile [1, 2] earlyRecord 25 "u-2",
        .getFile "tok" 30, .deferred "tok", .cleanupExpired 40, .getFile "tok" 50],
      op.savesTo "tok" = false) ∧
    (onceStorage.downloads "tok"
      [.getFile "tok" 20, .getFileMetadata "tok", .saveFile [1, 2] earlyRecord 25 "u-2",
       .getFile "tok" 30, .deferred "tok", .cleanupExpired 40, .getFile "tok" 50] : Int) ≤
      onceStored.DownloadsLeft :=
  ⟨⟨by decide, by decide⟩, by decide,
    downloads_at_most_counter onceStorage "tok" onceStored (by decide) (by decide) _
      (by decide)⟩

/-! ## The counter is never negative -/

theorem countersNonNeg_mapDelete {s s1 : Storage} (id : String) (h : s.CountersNonNeg)
    (hf : s1.files = s.files ∨ s1.files = mapDelete id s.files) : s1.CountersNonNeg := by
  intro entry hmem
  rcases hf with hf | hf
  · rw [hf] at hmem; exact h entry hmem
  · rw [hf] at hmem; exact h entry (mem_mapDelete hmem)

theorem countersNonNeg_mapSet {s s1 : Storage} {id : String} {m : FileMetadata}
    (h : s.CountersNonNeg) (hm : 0 ≤ m.DownloadsLeft) (hf : s1.files = mapSet id m s.files) :
    s1.CountersNonNeg := by
  intro entry hmem
  rw [hf, mapSet, List.mem_cons] at hmem
  rcases hmem with heq | hmem
  · rw [heq]; exact hm
  · exact h entry (mem_mapDelete hmem)

theorem deleteFile_countersNonNeg (s : Storage) (id : String) (h : s.CountersNonNeg) :
    (s.deleteFile id).1.CountersNonNeg :=
  countersNonNeg_mapDelete id h (deleteFile_files s id)

/-- Every operation other than a `SaveFile` of a negative counter keeps the counters of the
index non-negative. -/
theorem step_countersNonNeg (s : Storage) (op : Op) (h : s.CountersNonNeg)
    (hop : op.savesNegative = false) : (s.step op).1.CountersNonNeg := by
  cases op with
  | saveFile data metadata now uuid =>
    have hm : 0 ≤ metadata.DownloadsLeft := by simpa [Op.savesNegative] using hop
    simp only [Storage.step]
    rcases saveFile_files s data metadata now uuid with hf | hf
    · exact countersNonNeg_mapDelete "" h (Or.inl hf)
    · refine countersNonNeg_mapSet h ?_ hf
      rw [saveFile_record]
      exact hm
  | getFile id now =>
    simp only [Storage.step]
    rcases getFile_files s id now with hf | hf | ⟨md, _, hn, _, hf⟩
    · exact countersNonNeg_mapDelete id h (Or.inl hf)
    · exact countersNonNeg_mapDelete id h (Or.inr hf)
    · refine countersNonNeg_mapSet h ?_ hf
      show 0 ≤ md.DownloadsLeft - 1
      omega
  | getFileMetadata id => exact h
  | cleanupExpired now =>
    exact cleanupExpired_preserves Storage.CountersNonNeg deleteFile_countersNonNeg s now h
  | deferred id =>
    exact runDeferred_preserves Storage.CountersNonNeg deleteFile_countersNonNeg
      (fun _ _ hp => hp) s id h

theorem run_countersNonNeg :
    ∀ (ops : List Op) (s : Storage), s.CountersNonNeg →
      (∀ op ∈ ops, op.savesNegative = false) → (s.run ops).1.CountersNonNeg := by
  intro ops
  induction ops with
  | nil => intro s h _; exact h
  | cons op rest ih =>
    intro s h hops
    simp only [Storage.run]
    exact ih _ (step_countersNonNeg s op h (hops op (List.mem_cons_self _ _)))
      (fun o ho => hops o (List.mem_cons_of_mem _ ho))

/-- C8. In every index state reached from the empty index by a sequence of `SaveFile` (of
records whose `DownloadsLeft` is not negative), `GetFile`, `GetFileMetadata`, `CleanupExpired`
and deferred deletion steps, every stored record has `DownloadsLeft ≥ 0`. -/
theorem reachable_counters_nonneg (basePath : String) (disk : Disk) (ops : List Op)
    (hops : ∀ op ∈ ops, op.savesNegative = false) :
    ∀ entry ∈ ((NewStorage basePath disk).run ops).1.files, 0 ≤ entry.2.DownloadsLeft :=
  run_countersNonNeg ops (NewStorage basePath disk) (fun _ hmem => by cases hmem) hops

theorem reachable_counters_nonneg_witness :
    (∀ op ∈ [Op.saveFile [1, 2] onceRecord 10 "u-1", Op.getFile "tok" 20],
      op.savesNegative = false) ∧
    ∀ entry ∈ ((NewStorage "/data" emptyDisk).run
      [Op.saveFile [1, 2] onceRecord 10 "u-1", Op.getFile "tok" 20]).1.files,
      0 ≤ entry.2.DownloadsLeft :=
  ⟨by decide,
    reachable_counters_nonneg "/data" emptyDisk
      [Op.saveFile [1, 2] onceRecord 10 "u-1", Op.getFile "tok" 20] (by decide)⟩

/-! ## Consuming the whole budget -/

theorem run_append (ops1 ops2 : List Op) :
    ∀ s : Storage, s.run (ops1 ++ ops2) =
      (((s.run ops1).1.run ops2).1, (s.run ops1).2 ++ ((s.run ops1).1.run ops2).2) := by
  induction ops1 with
  | nil => intro s; simp [Storage.run]
  | cons op rest ih => intro s; simp [Storage.run, ih]

theorem downloads_append (id : String) (ops1 ops2 : List Op) :
    ∀ s : Storage, s.downloads id (ops1 ++ ops2) =
      s.downloads id ops1 + (s.run ops1).1.downloads id ops2 := by
  induction ops1 with
  | nil => intro s; simp [Storage.downloads, Storage.run]
  | cons op rest ih =>
    intro s
    rw [List.cons_append, downloads_cons, downloads_cons, ih]
    simp only [Storage.run]
    omega

/-- As many consecutive `GetFile` calls as the counter says, none after the deadline: all
succeed, and the record is left in the index with its counter at zero. -/
theorem getFileCalls_succeed (id : String) :
    ∀ (clocks : List Int) (s : Storage) (md : FileMetadata),
      mapGet id s.files = some md → (clocks.length : Int) = md.DownloadsLeft →
      (∀ t ∈ clocks, t ≤ md.ExpiresAt) →
      (∀ o ∈ (s.run (getFileCalls id clocks)).2, o.isDownload = true) ∧
      s.downloads id (getFileCalls id clocks) = clocks.length ∧
      (s.run (getFileCalls id clocks)).1.Spent id md.ExpiresAt := by
  intro clocks
  induction clocks with
  | nil =>
    intro s md hstored hlen _
    refine ⟨fun o ho => by simp [getFileCalls, Storage.run] at ho,
      by simp [getFileCalls, Storage.downloads, Storage.run], ?_⟩
    right
    refine ⟨md, hstored, ?_, rfl⟩
    simp at hlen
    omega
  | cons t rest ih =>
    intro s md hstored hlen hts
    have hn : 1 ≤ md.DownloadsLeft := by
      simp only [List.length_cons, Nat.cast_add, Nat.cast_one] at hlen
      omega
    have ht : t ≤ md.ExpiresAt := hts t (List.mem_cons_self _ _)
    have hres := getFile_live_result s id t md hstored ht hn
    have hnew := getFile_live_stored s id t md hstored ht hn
    have hlen1 : (rest.length : Int) =
        ({ md with DownloadsLeft := md.DownloadsLeft - 1 } : FileMetadata).DownloadsLeft := by
      simp only [List.length_cons, Nat.cast_add, Nat.cast_one] at hlen
      show (rest.length : Int) = md.DownloadsLeft - 1
      omega
    obtain ⟨h1, h2, h3⟩ := ih (s.GetFile id t).1 _ hnew hlen1
      (fun u hu => hts u (List.mem_cons_of_mem _ hu))
    refine ⟨?_, ?_, ?_⟩
    · intro o ho
      simp only [getFileCalls, List.map_cons, Storage.run, Storage.step, List.mem_cons] at ho
      rcases ho with ho | ho
      · rw [ho, hres]; rfl
      · exact h1 o ho
    · have hcons : getFileCalls id (t :: rest) = Op.getFile id t :: getFileCalls id rest := rfl
      rw [hcons, downloads_cons]
      show (isDownloadOf id (Op.getFile id t, Outcome.got (s.GetFile id t).2)).toNat +
        (s.GetFile id t).1.downloads id (getFileCalls id rest) = (t :: rest).length
      rw [h2, hres]
      simp [isDownloadOf, Nat.add_comm]
    · exact h3

theorem spent_of_get_some {s s1 : Storage} {id : String} {deadline : Int}
    (h : s.Spent id deadline)
    (hsub : ∀ m, mapGet id s1.files = some m → mapGet id s.files = some m) :
    s1.Spent id deadline := by
  cases h1 : mapGet id s1.files with
  | none => exact Or.inl h1
  | some m =>
    rcases h with hnone | ⟨m0, hm0, hz, hd⟩
    · rw [hsub m h1] at hnone; cases hnone
    · have hmm : m = m0 := Option.some.inj ((hsub m h1).symm.trans hm0)
      subst hmm
      exact Or.inr ⟨m, h1, hz, hd⟩

/-- Once the record is spent, a `GetFile` on it before the deadline fails with the exhausted
or the not-found error, and the record stays spent. -/
theorem getFile_spent (s : Storage) (id : String) (deadline now : Int)
    (h : s.Spent id deadline) (hnow : now ≤ deadline) :
    ((s.GetFile id now).2 = .error "download limit reached" ∨
      (s.GetFile id now).2 = .error "file not found") ∧
    (s.GetFile id now).1.Spent id deadline := by
  rcases h with hnone | ⟨m, hm, hz, hd⟩
  · rw [getFile_absent s id now hnone]
    exact ⟨Or.inr rfl, Or.inl hnone⟩
  · have hlive : now ≤ m.ExpiresAt := by rw [hd]; exact hnow
    rw [getFile_exhausted s id now m hm hlive hz]
    exact ⟨Or.inl rfl,
      spent_of_get_some (Or.inr ⟨m, hm, hz, hd⟩) (fun _ h1 => deleteFile_get_some h1)⟩

theorem retries_refused (id : String) (deadline : Int) :
    ∀ (ops : List Op) (s : Storage), s.Spent id deadline →
      (∀ op ∈ ops, op.retries id deadline = true) →
      (∀ o ∈ (s.run ops).2, o.refused = true) ∧ s.downloads id ops = 0 := by
  intro ops
  induction ops with
  | nil => intro s _ _; simp [Storage.run, Storage.downloads]
  | cons op rest ih =>
    intro s hs hops
    have hop := hops op (List.mem_cons_self _ _)
    have hrest : ∀ o ∈ rest, o.retries id deadline = true :=
      fun o ho => hops o (List.mem_cons_of_mem _ ho)
    cases op with
    | saveFile data metadata now uuid => simp [Op.retries] at hop
    | getFileMetadata id1 => simp [Op.retries] at hop
    | cleanupExpired now => simp [Op.retries] at hop
    | getFile id1 now =>
      simp only [Op.retries, Bool.and_eq_true, decide_eq_true_eq] at hop
      obtain ⟨hid, hnow⟩ := hop
      subst hid
      obtain ⟨hres, hspent⟩ := getFile_spent s id1 deadline now hs hnow
      obtain ⟨h1, h2⟩ := ih _ hspent hrest
      refine ⟨?_, ?_⟩
      · intro o ho
        simp only [Storage.run, Storage.step, List.mem_cons] at ho
        rcases ho with ho | ho
        · rcases hres with hres | hres <;> (rw [ho, hres]; rfl)
        · exact h1 o ho
      · rw [downloads_cons]
        show (isDownloadOf id1 (Op.getFile id1 now, Outcome.got (s.GetFile id1 now).2)).toNat +
          (s.GetFile id1 now).1.downloads id1 rest = 0
        rw [h2]
        rcases hres with hres | hres <;> (rw [hres]; rfl)
    | deferred id1 =>
      have hspent : (s.runDeferred id1).Spent id deadline :=
        spent_of_get_some hs (fun _ h1 => runDeferred_get_some h1)
      obtain ⟨h1, h2⟩ := ih _ hspent hrest
      refine ⟨?_, ?_⟩
      · intro o ho
        simp only [Storage.run, Storage.step, List.mem_cons] at ho
        rcases ho with ho | ho
        · rw [ho]; rfl
        · exact h1 o ho
      · rw [downloads_cons]
        simp only [Storage.step]
        rw [h2]
        rfl

/-- C2. For a record stored with `DownloadsLeft = n` and clock values that do not pass its
deadline, `n` consecutive `GetFile` calls on its ID all succeed, and in every continuation made
of further `GetFile` calls on that ID and of deferred deletion steps, in any order, every
`GetFile` fails with "download limit reached" or "file not found"; so exactly `n` calls of
the whole run succeed (one when `n = 1`). -/
theorem getFile_succeeds_exactly_counter (s : Storage) (id : String) (md : FileMetadata)
    (hstored : mapGet id s.files = some md) (clocks : List Int)
    (hlen : (clocks.length : Int) = md.DownloadsLeft)
    (hclocks : ∀ t ∈ clocks, t ≤ md.ExpiresAt) (later : List Op)
    (hlater : ∀ op ∈ later, op.retries id md.ExpiresAt = true) :
    (∀ o ∈ (s.run (getFileCalls id clocks)).2, o.isDownload = true) ∧
    (∀ o ∈ ((s.run (getFileCalls id clocks)).1.run later).2, o.refused = true) ∧
    s.downloads id (getFileCalls id clocks ++ later) = clocks.length := by
  obtain ⟨h1, h2, h3⟩ := getFileCalls_succeed id clocks s md hstored hlen hclocks
  obtain ⟨h4, h5⟩ := retries_refused id md.ExpiresAt later _ h3 hlater
  refine ⟨h1, h4, ?_⟩
  rw [downloads_append, h2, h5]
  rfl

theorem getFile_succeeds_exactly_counter_witness :
    (mapGet "tok" onceStorage.files = some onceStored ∧
      (([20] : List Int).length : Int) = onceStored.DownloadsLeft ∧
      (∀ t ∈ ([20] : List Int), t ≤ onceStored.ExpiresAt) ∧
      ∀ op ∈ [Op.getFile "tok" 30, Op.deferred "tok", Op.getFile "tok" 40],
        op.retries "tok" onceStored.ExpiresAt = true) ∧
    onceStorage.downloads "tok"
      (getFileCalls "tok" [20] ++ [Op.getFile "tok" 30, Op.deferred "tok", Op.getFile "tok" 40])
      = 1 :=
  ⟨⟨by decide, by decide, by decide, by decide⟩,
    (getFile_succeeds_exactly_counter onceStorage "tok" onceStored (by decide) [20]
      (by decide) (by decide) _ (by decide)).2.2⟩

/-! ## The cipher -/

theorem readFull_some {rnd : Bytes} {n : Nat} {out : Bytes} (h : readFull rnd n = some out) :
    out = rnd.take n ∧ out.length = n := by
  unfold readFull at h
  by_cases hn : n ≤ rnd.length
  · rw [if_pos hn] at h
    have : rnd.take n = out := Option.some.inj h
    subst this
    exact ⟨rfl, by simp [List.length_take, hn]⟩
  · rw [if_neg hn] at h; cases h

theorem aesNewCipher_keySize {key : Bytes} (hk : key.length = KeySize) :
    aesNewCipher key = some key := by
  unfold aesNewCipher
  rw [hk]
  simp [KeySize]

/-- With a key of `KeySize` bytes `Encrypt` fails only when the nonce cannot be read; its
output is the nonce followed by the sealed text. -/
theorem encrypt_keySize (gcm : GCM) (rnd data key : Bytes) (hk : key.length = KeySize) :
    Encrypt gcm rnd data key =
      match readFull rnd NonceSize with
      | none => .error ErrEncryption
      | some nonce => .ok (nonce ++ gcm.Seal key nonce data) := by
  unfold Encrypt
  simp [hk, aesNewCipher_keySize hk, cipherNewGCM]

/-- The function `Decrypt` splits its input after `NonceSize` bytes. -/
theorem decrypt_framed (gcm : GCM) (nonce sealed key : Bytes) (hk : key.length = KeySize)
    (hn : nonce.length = NonceSize) :
    Decrypt gcm (nonce ++ sealed) key =
      match gcm.Open key nonce sealed with
      | none => .error ErrDecryption
      | some plaintext => .ok plaintext := by
  unfold Decrypt
  have hlen : ¬ (nonce ++ sealed).length < NonceSize := by
    rw [List.length_append, hn]; omega
  have htake : (nonce ++ sealed).take NonceSize = nonce := by
    rw [← hn]; exact List.take_left' rfl
  have hdrop : (nonce ++ sealed).drop NonceSize = sealed := by
    rw [← hn]; exact List.drop_left' rfl
  simp only [hk, ne_eq, not_true_eq_false, if_false, aesNewCipher_keySize hk, cipherNewGCM,
    hlen, htake, hdrop]

theorem decrypt_of_encrypt (gcm : GCM) (hgcm : gcm.Correct) (rnd data key : Bytes)
    (hk : key.length = KeySize) (c : Bytes) (henc : Encrypt gcm rnd data key = .ok c) :
    Decrypt gcm c key = .ok data := by
  rw [encrypt_keySize gcm rnd data key hk] at henc
  cases hr : readFull rnd NonceSize with
  | none => rw [hr] at henc; cases henc
  | some nonce =>
    rw [hr] at henc
    have hc : nonce ++ gcm.Seal key nonce data = c := Except.ok.inj henc
    have hn := (readFull_some hr).2
    rw [← hc, decrypt_framed gcm nonce _ key hk hn, hgcm key nonce data hk hn]

/-- What `EncryptFile` returns: a key of `KeySize` bytes and the output of `Encrypt` under
that key. -/
theorem encryptFile_ok (gcm : GCM) (rnd fileData c k : Bytes)
    (hfile : EncryptFile gcm rnd fileData = .ok (c, k)) :
    k.length = KeySize ∧ Encrypt gcm (rnd.drop KeySize) fileData k = .ok c := by
  unfold EncryptFile GenerateKey at hfile
  cases hr : readFull rnd KeySize with
  | none => rw [hr] at hfile; cases hfile
  | some k1 =>
    rw [hr] at hfile
    have hk1 := (readFull_some hr).2
    cases he : Encrypt gcm (rnd.drop KeySize) fileData k1 with
    | error err => simp only [he] at hfile; cases hfile
    | ok c1 =>
      simp only [he] at hfile
      have hpair : (c1, k1) = (c, k) := Except.ok.inj hfile
      have hc : c1 = c := congrArg Prod.fst hpair
      have hkk : k1 = k := congrArg Prod.snd hpair
      rw [← hc, ← hkk]
      exact ⟨hk1, he⟩

theorem tagGCM_correct : tagGCM.Correct := by
  intro key nonce plaintext _ _
  simp [tagGCM]

/-- C9. With the AEAD of the standard library meeting its contract, for every payload
(the empty one included), every key of exactly 32 bytes and every state of the entropy source:
whatever ciphertext `Encrypt` returns, `Decrypt` with the same key succeeds on it and returns
the payload; `Encrypt` does return one whenever the nonce can be read; and `DecryptFile`
returns the payload on every pair `EncryptFile` returns. -/
theorem decrypt_encrypt_roundtrip (gcm : GCM) (hgcm : gcm.Correct) (rnd payload key : Bytes)
    (hk : key.length = KeySize) :
    (∀ c, Encrypt gcm rnd payload key = .ok c → Decrypt gcm c key = .ok payload) ∧
    (NonceSize ≤ rnd.length → ∃ c, Encrypt gcm rnd payload key = .ok c) ∧
    (∀ c k, EncryptFile gcm rnd payload = .ok (c, k) →
      DecryptFile gcm c k = .ok payload) := by
  refine ⟨fun c henc => decrypt_of_encrypt gcm hgcm rnd payload key hk c henc, ?_, ?_⟩
  · intro hlen
    rw [encrypt_keySize gcm rnd payload key hk]
    simp [readFull, hlen]
  · intro c k hfile
    obtain ⟨hk1, henc⟩ := encryptFile_ok gcm rnd payload c k hfile
    exact decrypt_of_encrypt gcm hgcm _ payload k hk1 c henc

theorem decrypt_encrypt_roundtrip_witness :
    (tagGCM.Correct ∧ sampleKey.length = KeySize) ∧
    (∃ c, Encrypt tagGCM sampleEntropy [] sampleKey = .ok c) ∧
    ∀ c, Encrypt tagGCM sampleEntropy [] sampleKey = .ok c →
      Decrypt tagGCM c sampleKey = .ok [] :=
  ⟨⟨tagGCM_correct, by decide⟩,
    (decrypt_encrypt_roundtrip tagGCM tagGCM_correct sampleEntropy [] sampleKey
      (by decide)).2.1 (by decide),
    (decrypt_encrypt_roundtrip tagGCM tagGCM_correct sampleEntropy [] sampleKey
      (by decide)).1⟩

/-! ## The sweep -/

theorem mapGet_mem {β : Type} {k : String} {v : β} :
    ∀ {m : List (String × β)}, mapGet k m = some v → (k, v) ∈ m := by
  intro m
  induction m with
  | nil => intro h; cases h
  | cons kv rest ih =>
    intro h
    rw [mapGet_cons] at h
    by_cases hk : kv.1 = k
    · rw [if_pos hk] at h
      have hv : kv.2 = v := Option.some.inj h
      have : kv = (k, v) := Prod.ext hk hv
      rw [this]; exact List.mem_cons_self _ _
    · rw [if_neg hk] at h
      exact List.mem_cons_of_mem _ (ih h)

theorem mapGet_of_not_mem_keys {β : Type} {k : String} :
    ∀ {m : List (String × β)}, k ∉ mapKeys m → mapGet k m = none := by
  intro m
  induction m with
  | nil => intro _; rfl
  | cons kv rest ih =>
    intro h
    simp only [mapKeys, List.map_cons, List.mem_cons, not_or] at h
    rw [mapGet_cons, if_neg (fun hk => h.1 hk.symm)]
    exact ih h.2

theorem mapGet_append_entry {β : Type} (entry : String × β) (rest : List (String × β)) :
    ∀ (done : List (String × β)), entry.1 ∉ mapKeys done →
      mapGet entry.1 (done ++ entry :: rest) = some entry.2 := by
  intro done
  induction done with
  | nil => intro _; rw [List.nil_append, mapGet_cons, if_pos rfl]
  | cons kv more ih =>
    intro h
    simp only [mapKeys, List.map_cons, List.mem_cons, not_or] at h
    rw [List.cons_append, mapGet_cons, if_neg (fun hk => h.1 hk.symm)]
    exact ih h.2

theorem mapDelete_of_not_mem_keys {β : Type} {k : String} :
    ∀ {m : List (String × β)}, k ∉ mapKeys m → mapDelete k m = m := by
  intro m
  induction m with
  | nil => intro _; rfl
  | cons kv rest ih =>
    intro h
    simp only [mapKeys, List.map_cons, List.mem_cons, not_or] at h
    rw [mapDelete_cons, if_neg (fun hk => h.1 hk.symm), ih h.2]

theorem mapDelete_append {β : Type} (k : String) (m1 m2 : List (String × β)) :
    mapDelete k (m1 ++ m2) = mapDelete k m1 ++ mapDelete k m2 := by
  simp [mapDelete, List.filter_append]

/-- Deleting the key of an entry from a map without duplicate keys removes that entry and
nothing else. -/
theorem mapDelete_entry {β : Type} (done rest : List (String × β)) (entry : String × β)
    (hnd : (mapKeys (done ++ entry :: rest)).Nodup) :
    mapDelete entry.1 (done ++ entry :: rest) = done ++ rest := by
  have hnd1 : (mapKeys done ++ entry.1 :: mapKeys rest).Nodup := by
    simpa [mapKeys] using hnd
  have hparts := List.nodup_append.mp hnd1
  have hdone : entry.1 ∉ mapKeys done :=
    fun hmem => hparts.2.2 hmem (List.mem_cons_self _ _) 
  have hrest : entry.1 ∉ mapKeys rest := (List.nodup_cons.mp hparts.2.1).1
  rw [mapDelete_append, mapDelete_cons, if_pos rfl, mapDelete_of_not_mem_keys hdone,
    mapDelete_of_not_mem_keys hrest]

theorem osRemove_gone {d d1 : Disk} {path : String}
    (h : osRemove d path = .ok d1 ∨ (osRemove d path = .error .notExist ∧ d1 = d)) :
    mapGet path d1.blobs = none := by
  unfold osRemove at h
  cases hg : mapGet path d.blobs with
  | none =>
    rw [hg] at h
    rcases h with h | ⟨_, h⟩
    · cases h
    · rw [h]; exact hg
  | some data =>
    rw [hg] at h
    by_cases hu : path ∈ d.undeletable
    · simp [hu] at h
    · simp only [hu, if_false] at h
      rcases h with h | ⟨h, _⟩
      · have hd : d1 = { d with blobs := mapDelete path d.blobs } := (Except.ok.inj h).symm
        rw [hd]; exact mapGet_mapDelete_self _ _
      · cases h

theorem osRemove_blobs {d d1 : Disk} {path : String} (h : osRemove d path = .ok d1) :
    d1.blobs = mapDelete path d.blobs := by
  unfold osRemove at h
  cases hg : mapGet path d.blobs with
  | none => rw [hg] at h; cases h
  | some data =>
    rw [hg] at h
    by_cases hu : path ∈ d.undeletable
    · simp [hu] at h
    · simp only [hu, if_false] at h
      rw [← Except.ok.inj h]

/-- The call `deleteFile` puts no blob on the disk. -/
theorem deleteFile_blob_none (s : Storage) (id : String) {path : String}
    (h : mapGet path s.disk.blobs = none) : mapGet path (s.deleteFile id).1.disk.blobs = none := by
  rcases deleteFile_cases s id with ⟨_, hd⟩ | ⟨_, _, _, hd⟩ | ⟨_, _, _, hd⟩ | ⟨_, d, _, hr, hd⟩
  · rw [hd]; exact h
  · rw [hd]; exact h
  · rw [hd]; exact h
  · rw [hd]
    show mapGet path d.blobs = none
    rw [osRemove_blobs hr]
    exact mapGet_mapDelete_none h

theorem cleanupStep_sweepable (now : Int) (acc : Storage × Option String)
    (entry : String × FileMetadata) (hsw : sweepable now entry.2 = true) :
    Storage.cleanupStep now acc entry =
      ((acc.1.deleteFile entry.1).1,
        match (acc.1.deleteFile entry.1).2 with
        | some err => some err
        | none => acc.2) := by
  unfold Storage.cleanupStep
  rw [if_pos hsw]
  rcases hd : acc.1.deleteFile entry.1 with ⟨s1, _ | err⟩ <;> rfl

theorem cleanupStep_kept (now : Int) (acc : Storage × Option String)
    (entry : String × FileMetadata) (hsw : ¬ sweepable now entry.2 = true) :
    Storage.cleanupStep now acc entry = acc := by
  unfold Storage.cleanupStep
  rw [if_neg hsw]

/-- An error of the sweep is never reset. -/
theorem cleanup_fold_error (now : Int) :
    ∀ (entries : List (String × FileMetadata)) (acc : Storage × Option String),
      acc.2 ≠ none → (entries.foldl (Storage.cleanupStep now) acc).2 ≠ none := by
  intro entries
  induction entries with
  | nil => intro acc h; exact h
  | cons entry rest ih =>
    intro acc h
    rw [List.foldl_cons]
    apply ih
    by_cases hsw : sweepable now entry.2 = true
    · rw [cleanupStep_sweepable now acc entry hsw]
      cases hd : (acc.1.deleteFile entry.1).2 with
      | none => exact h
      | some err => simp
    · rw [cleanupStep_kept now acc entry hsw]; exact h

/-- The loop of the sweep over the entries not yet visited: when it ends without an error,
the entries already passed are as they were, the swept ones among the rest are gone with
their blobs, and the others are kept. -/
theorem cleanup_fold_exact (now : Int) :
    ∀ (entries done : List (String × FileMetadata)) (acc : Storage × Option String),
      acc.1.files = done ++ entries → (mapKeys (done ++ entries)).Nodup →
      (entries.foldl (Storage.cleanupStep now) acc).2 = none →
      (entries.foldl (Storage.cleanupStep now) acc).1.files =
        done ++ entries.filter (fun e => !sweepable now e.2) ∧
      ∀ e ∈ entries, sweepable now e.2 = true →
        mapGet e.2.FilePath (entries.foldl (Storage.cleanupStep now) acc).1.disk.blobs = none := by
  intro entries
  induction entries with
  | nil =>
    intro done acc hfiles _ _
    refine ⟨by simpa using hfiles, fun e he => by cases he⟩
  | cons entry rest ih =>
    intro done acc hfiles hnd hnone
    rw [List.foldl_cons] at hnone ⊢
    by_cases hsw : sweepable now entry.2 = true
    · have hnd1 : (mapKeys done ++ entry.1 :: mapKeys rest).Nodup := by
        simpa [mapKeys] using hnd
      have hparts := List.nodup_append.mp hnd1
      have hdone : entry.1 ∉ mapKeys done :=
        fun hmem => hparts.2.2 hmem (List.mem_cons_self _ _)
      have hget : mapGet entry.1 acc.1.files = some entry.2 := by
        rw [hfiles]; exact mapGet_append_entry entry rest done hdone
      have hdel : mapDelete entry.1 acc.1.files = done ++ rest := by
        rw [hfiles]; exact mapDelete_entry done rest entry hnd
      have hnd2 : (mapKeys (done ++ rest)).Nodup := by
        have hsub : List.Sublist (mapKeys done ++ mapKeys rest)
            (mapKeys done ++ entry.1 :: mapKeys rest) :=
          List.Sublist.append_left (List.sublist_cons_self _ _) _
        have := hnd1.sublist hsub
        simpa [mapKeys] using this
      rw [cleanupStep_sweepable now acc entry hsw] at hnone ⊢
      have hfilter : (entry :: rest).filter (fun e => !sweepable now e.2) =
          rest.filter (fun e => !sweepable now e.2) := by
        simp [List.filter_cons, hsw]
      rw [hfilter]
      rcases deleteFile_cases acc.1 entry.1 with
        ⟨hg, _⟩ | ⟨md, hg, hr, hd⟩ | ⟨md, _, _, hd⟩ | ⟨md, d, hg, hr, hd⟩
      · rw [hget] at hg; cases hg
      · have hmd : md = entry.2 := by rw [hget] at hg; exact (Option.some.inj hg).symm
        subst hmd
        rw [hd] at hnone ⊢
        obtain ⟨h1, h2⟩ := ih done _ hdel hnd2 hnone
        refine ⟨h1, fun e he hswe => ?_⟩
        rcases List.mem_cons.mp he with heq | hmem
        · subst heq
          refine cleanup_fold_preserves
            (fun st => mapGet e.2.FilePath st.disk.blobs = none)
            (fun st id hp => deleteFile_blob_none st id hp) now rest _ ?_
          exact osRemove_gone (Or.inr ⟨hr, rfl⟩)
        · exact h2 e hmem hswe
      · exfalso
        rw [hd] at hnone
        exact cleanup_fold_error now rest _ (by simp) hnone
      · have hmd : md = entry.2 := by rw [hget] at hg; exact (Option.some.inj hg).symm
        subst hmd
        rw [hd] at hnone ⊢
        obtain ⟨h1, h2⟩ := ih done _ hdel hnd2 hnone
        refine ⟨h1, fun e he hswe => ?_⟩
        rcases List.mem_cons.mp he with heq | hmem
        · subst heq
          refine cleanup_fold_preserves
            (fun st => mapGet e.2.FilePath st.disk.blobs = none)
            (fun st id hp => deleteFile_blob_none st id hp) now rest _ ?_
          exact osRemove_gone (Or.inl hr)
        · exact h2 e hmem hswe
    · rw [cleanupStep_kept now acc entry hsw] at hnone ⊢
      have hfiles1 : acc.1.files = (done ++ [entry]) ++ rest := by
        rw [hfiles]; simp
      have hnd1 : (mapKeys ((done ++ [entry]) ++ rest)).Nodup := by
        simpa using hnd
      obtain ⟨h1, h2⟩ := ih (done ++ [entry]) acc hfiles1 hnd1 hnone
      refine ⟨?_, fun e he hswe => ?_⟩
      · rw [h1]
        simp [List.filter_cons, hsw]
      · rcases List.mem_cons.mp he with heq | hmem
        · subst heq; exact absurd hswe hsw
        · exact h2 e hmem hswe

/-- Looking up in a map without duplicate keys after filtering its values. -/
theorem mapGet_filter {β : Type} (keep : β → Bool) (k : String) :
    ∀ (m : List (String × β)), (mapKeys m).Nodup →
      mapGet k (m.filter (fun e => keep e.2)) = (mapGet k m).filter keep := by
  intro m
  induction m with
  | nil => intro _; rfl
  | cons kv rest ih =>
    intro hnd
    have hnd1 : kv.1 ∉ mapKeys rest ∧ (mapKeys rest).Nodup := by
      simpa [mapKeys] using hnd
    rw [mapGet_cons, List.filter_cons]
    by_cases hk : kv.1 = k
    · rw [if_pos hk]
      by_cases hkeep : keep kv.2 = true
      · rw [if_pos hkeep, mapGet_cons, if_pos hk]
        simp [Option.filter, hkeep]
      · rw [if_neg hkeep]
        have hnot : k ∉ mapKeys (rest.filter (fun e => keep e.2)) := by
          intro hmem
          rw [← hk] at hmem
          apply hnd1.1
          simp only [mapKeys, List.mem_map] at hmem ⊢
          obtain ⟨e, he, hek⟩ := hmem
          exact ⟨e, (List.mem_filter.mp he).1, hek⟩
        rw [mapGet_of_not_mem_keys hnot]
        simp [Option.filter, hkeep]
    · rw [if_neg hk]
      by_cases hkeep : keep kv.2 = true
      · rw [if_pos hkeep, mapGet_cons, if_neg hk]
        exact ih hnd1.2
      · rw [if_neg hkeep]
        exact ih hnd1.2

/-- C10. For an index without duplicate keys and a clock value `now`, when the sweep meets no
deletion error (`CleanupExpired` returns none), the index it leaves holds exactly the stored
records that are neither expired (`now` after `ExpiresAt`) nor exhausted
(`DownloadsLeft ≤ 0`): looking up any ID gives the record stored before if it is neither, and
nothing otherwise; the blob of every record it removed is gone from the disk. -/
theorem cleanupExpired_exact (s : Storage) (now : Int) (hwf : s.WF)
    (hok : (s.CleanupExpired now).2 = none) :
    (s.CleanupExpired now).1.files = s.files.filter (fun e => !sweepable now e.2) ∧
    (∀ id, mapGet id (s.CleanupExpired now).1.files =
      (mapGet id s.files).filter
        (fun md => !(decide (md.ExpiresAt < now) || decide (md.DownloadsLeft ≤ 0)))) ∧
    (∀ id md, mapGet id s.files = some md → (md.ExpiresAt < now ∨ md.DownloadsLeft ≤ 0) →
      mapGet md.FilePath (s.CleanupExpired now).1.disk.blobs = none) := by
  have hnd : (mapKeys ([] ++ s.files)).Nodup := by simpa using hwf
  obtain ⟨h1, h2⟩ := cleanup_fold_exact now s.files [] (s, none) rfl hnd hok
  have hfiles : (s.CleanupExpired now).1.files =
      s.files.filter (fun e => !sweepable now e.2) := by
    simpa using h1
  refine ⟨hfiles, fun id => ?_, fun id md hstored hdead => ?_⟩
  · rw [hfiles]
    exact mapGet_filter (fun md => !sweepable now md) id s.files hwf
  · have hmem := mapGet_mem hstored
    have hsw : sweepable now md = true := by
      simpa [sweepable] using hdead
    exact h2 (id, md) hmem hsw

theorem cleanupExpired_exact_witness :
    (twoStorage.WF ∧ (twoStorage.CleanupExpired 50).2 = none) ∧
    mapGet "old" (twoStorage.CleanupExpired 50).1.files = none ∧
    mapGet "tok" (twoStorage.CleanupExpired 50).1.files = some onceStored ∧
    mapGet "/data/old" (twoStorage.CleanupExpired 50).1.disk.blobs = none :=
  ⟨⟨by decide, by decide⟩, by decide, by decide,
    (cleanupExpired_exact twoStorage 50 (by decide) (by decide)).2.2 "old"
      { earlyRecord with FilePath := "/data/old", CreatedAt := 11 } (by decide)
      (Or.inl (by decide))⟩

/-! ## The download path -/

/-- C4 at its failing input. The payload "hello" is uploaded with one download and a lifetime
of one hour. When `ReadFile` runs before the deletion that `GetFile` scheduled, `Download`
returns the payload; when the deletion runs first, the blob is gone, `Download` answers 500
"Failed to read file", and the only download is spent: the next `Download` answers 404. -/
theorem final_download_lost_to_eviction :
    (Handler.Upload tagGCM (NewStorage "/data" emptyDisk) helloUpload 0 0 "u-1" sampleEntropy).2 =
      .uploaded 200
        { Token := "u-1", ExpiresAt := 3600000000000, FileName := "hello.txt",
          DownloadURL := "/api/download/u-1" } ∧
    (Handler.Download tagGCM helloStorage "u-1" 10 false).2 =
      .data 200 "text/plain" helloPayload ∧
    (Handler.Download tagGCM helloStorage "u-1" 10 true).2 =
      .error 500 "Failed to read file" ∧
    (Handler.Download tagGCM (Handler.Download tagGCM helloStorage "u-1" 10 true).1
      "u-1" 11 false).2 = .error 404 "File not found or expired" := by
  decide

theorem getFile_live_disk (s : Storage) (id : String) (now : Int) (md : FileMetadata)
    (h : mapGet id s.files = some md) (hnow : now ≤ md.ExpiresAt) (hn : 1 ≤ md.DownloadsLeft) :
    (s.GetFile id now).1.disk = s.disk := by
  rw [getFile_live s id now md h hnow hn]
  by_cases h0 : md.DownloadsLeft - 1 = 0
  · simp only [if_pos h0]
  · simp only [if_neg h0]

/-- When `ReadFile` runs before any eviction, the download of a live record whose blob is on
the disk returns what `DecryptFile` makes of the blob. -/
theorem download_read_first (gcm : GCM) (s : Storage) (id : String) (md : FileMetadata)
    (now : Int) (hstored : mapGet id s.files = some md) (hlive : now ≤ md.ExpiresAt)
    (hleft : 1 ≤ md.DownloadsLeft) (blob payload : Bytes)
    (hblob : mapGet md.FilePath s.disk.blobs = some blob)
    (hdec : DecryptFile gcm blob md.EncryptionKey = .ok payload) :
    (Handler.Download gcm s id now false).2 = .data 200 md.ContentType payload := by
  have hres := getFile_live_result s id now md hstored hlive hleft
  have hdisk := getFile_live_disk s id now md hstored hlive hleft
  have key : ∀ r, s.GetFile id now = r →
      r.2 = .ok { md with DownloadsLeft := md.DownloadsLeft - 1 } → r.1.disk = s.disk →
      (match r with
        | (s1, .error _) => (s1, Response.error 404 "File not found or expired")
        | (s1, .ok metadata) =>
          let s2 : Storage := if false = true then s1.runDeferred id else s1
          match s2.ReadFile metadata with
          | .error _ => (s2, .error 500 "Failed to read file")
          | .ok encryptedData =>
            match DecryptFile gcm encryptedData metadata.EncryptionKey with
            | .error _ => (s2, .error 500 "Decryption failed")
            | .ok decryptedData => (s2, .data 200 metadata.ContentType decryptedData)).2 =
        .data 200 md.ContentType payload := by
    rintro ⟨s1, res⟩ _ hr hd
    simp only at hr hd
    subst hr
    simp [Storage.ReadFile, osReadFile, hd, hblob, hdec]
  exact key _ rfl hres hdisk

/-- When the scheduled deletion runs before `ReadFile` and the blob can be removed, the last
download of a record answers 500 "Failed to read file". -/
theorem download_eviction_first (gcm : GCM) (s : Storage) (id : String) (md : FileMetadata)
    (now : Int) (hstored : mapGet id s.files = some md) (hlive : now ≤ md.ExpiresAt)
    (hone : md.DownloadsLeft = 1) (hdel : md.FilePath ∉ s.disk.undeletable) :
    (Handler.Download gcm s id now true).2 = .error 500 "Failed to read file" := by
  have hleft : 1 ≤ md.DownloadsLeft := by omega
  have h0 : md.DownloadsLeft - 1 = 0 := by omega
  have hres := getFile_live_result s id now md hstored hlive hleft
  have hnew := getFile_live_stored s id now md hstored hlive hleft
  have hdisk := getFile_live_disk s id now md hstored hlive hleft
  have hpend : id ∈ (s.GetFile id now).1.pending := by
    rw [getFile_live s id now md hstored hlive hleft]
    simp [h0]
  have hgone : mapGet md.FilePath ((s.GetFile id now).1.runDeferred id).disk.blobs = none := by
    unfold Storage.runDeferred
    rw [if_pos hpend]
    show mapGet md.FilePath ((s.GetFile id now).1.deleteFile id).1.disk.blobs = none
    rcases deleteFile_cases (s.GetFile id now).1 id with
      ⟨hg, _⟩ | ⟨m, hg, hr, hd⟩ | ⟨m, hg, hr, _⟩ | ⟨m, d, hg, hr, hd⟩
    · rw [hnew] at hg; cases hg
    · rw [hnew] at hg
      have hm : m.FilePath = md.FilePath := by rw [← Option.some.inj hg]
      rw [hd, ← hm]
      exact osRemove_gone (Or.inr ⟨hr, rfl⟩)
    · rw [hnew] at hg
      have hm : m.FilePath = md.FilePath := by rw [← Option.some.inj hg]
      exfalso
      rw [hm, hdisk] at hr
      unfold osRemove at hr
      cases hb : mapGet md.FilePath s.disk.blobs with
      | none => rw [hb] at hr; cases hr
      | some data => simp [hb, hdel] at hr
    · rw [hnew] at hg
      have hm : m.FilePath = md.FilePath := by rw [← Option.some.inj hg]
      rw [hd, ← hm]
      exact osRemove_gone (Or.inl hr)
  have key : ∀ r, s.GetFile id now = r →
      r.2 = .ok { md with DownloadsLeft := md.DownloadsLeft - 1 } →
      mapGet md.FilePath (r.1.runDeferred id).disk.blobs = none →
      (match r with
        | (s1, .error _) => (s1, Response.error 404 "File not found or expired")
        | (s1, .ok metadata) =>
          let s2 : Storage := if true = true then s1.runDeferred id else s1
          match s2.ReadFile metadata with
          | .error _ => (s2, .error 500 "Failed to read file")
          | .ok encryptedData =>
            match DecryptFile gcm encryptedData metadata.EncryptionKey with
            | .error _ => (s2, .error 500 "Decryption failed")
            | .ok decryptedData => (s2, .data 200 metadata.ContentType decryptedData)).2 =
        .error 500 "Failed to read file" := by
    rintro ⟨s1, res⟩ _ hr hg
    simp only at hr hg
    subst hr
    simp [Storage.ReadFile, osReadFile, hg]
  exact key _ rfl hres hgone

/-- A `SaveFile` that returns no error has put the record in the index and the data on the
disk. -/
theorem saveFile_ok (s : Storage) (data : Bytes) (metadata : FileMetadata) (now : Int)
    (uuid : String) (hok : (s.SaveFile data metadata now uuid).2.2 = none) :
    mapGet (savedID metadata uuid) (s.SaveFile data metadata now uuid).1.files =
      some (s.SaveFile data metadata now uuid).2.1 ∧
    mapGet (s.SaveFile data metadata now uuid).2.1.FilePath
      (s.SaveFile data metadata now uuid).1.disk.blobs = some data := by
  unfold Storage.SaveFile osWriteFile at hok ⊢
  unfold savedID
  by_cases hid : metadata.ID = ""
  · simp only [hid, if_true] at hok ⊢
    by_cases hw : filepathJoin s.basePath uuid ∈ s.disk.unwritable
    · simp [hw] at hok
    · simp [hw, mapGet_mapSet_self]
  · simp only [hid, if_false] at hok ⊢
    by_cases hw : filepathJoin s.basePath metadata.ID ∈ s.disk.unwritable
    · simp [hw] at hok
    · simp [hw, mapGet_mapSet_self]

/-- The handler `Upload` answers 200 only after `EncryptFile` and `SaveFile` succeeded. -/
theorem upload_ok (gcm : GCM) (s : Storage) (req : UploadRequest) (now nowSave : Int)
    (uuid : String) (rnd : Bytes) (body : FileUploadResponse)
    (hup : (Handler.Upload gcm s req now nowSave uuid rnd).2 = .uploaded 200 body) :
    ∃ c k, EncryptFile gcm rnd req.fileData = .ok (c, k) ∧
      (s.SaveFile c (uploadMetadata req now k) nowSave uuid).2.2 = none ∧
      (Handler.Upload gcm s req now nowSave uuid rnd).1 =
        (s.SaveFile c (uploadMetadata req now k) nowSave uuid).1 ∧
      body.Token = uuid ∧ body.ExpiresAt = (uploadMetadata req now k).ExpiresAt := by
  unfold Handler.Upload at hup ⊢
  cases he : EncryptFile gcm rnd req.fileData with
  | error err => simp [he] at hup
  | ok pair =>
    obtain ⟨c, k⟩ := pair
    refine ⟨c, k, rfl, ?_⟩
    simp only [he] at hup ⊢
    have hrec := saveFile_record s c (uploadMetadata req now k) nowSave uuid
    have key : ∀ r, s.SaveFile c (uploadMetadata req now k) nowSave uuid = r →
        r.2.1 = { uploadMetadata req now k with
          ID := savedID (uploadMetadata req now k) uuid,
          FilePath := filepathJoin s.basePath (savedID (uploadMetadata req now k) uuid),
          CreatedAt := nowSave } →
        (match r with
          | (s1, _, some _) => (s1, Response.error 500 "Failed to save file")
          | (s1, saved, none) =>
            (s1, Response.uploaded 200
              { Token := saved.ID, ExpiresAt := saved.ExpiresAt, FileName := saved.FileName,
                DownloadURL := "/api/download/" ++ saved.ID })).2 = .uploaded 200 body →
        r.2.2 = none ∧
        (match r with
          | (s1, _, some _) => (s1, Response.error 500 "Failed to save file")
          | (s1, saved, none) =>
            (s1, Response.uploaded 200
              { Token := saved.ID, ExpiresAt := saved.ExpiresAt, FileName := saved.FileName,
                DownloadURL := "/api/download/" ++ saved.ID })).1 = r.1 ∧
        body.Token = uuid ∧ body.ExpiresAt = (uploadMetadata req now k).ExpiresAt := by
      rintro ⟨s1, saved, _ | err⟩ _ hsaved hbody
      · simp only at hsaved hbody
        subst hsaved
        have hb : body = _ := (Response.uploaded.inj hbody).2.symm
        subst hb
        simp [savedID, uploadMetadata]
      · simp at hbody
    exact key _ rfl hrec hup

/-- After a successful upload, at any clock value up to the deadline the response names, a
download in which `ReadFile` runs before any eviction returns the uploaded payload. -/
theorem download_after_upload (gcm : GCM) (hgcm : gcm.Correct) (s : Storage)
    (req : UploadRequest) (now nowSave : Int) (uuid : String) (rnd : Bytes)
    (body : FileUploadResponse)
    (hup : (Handler.Upload gcm s req now nowSave uuid rnd).2 = .uploaded 200 body)
    (later : Int) (hlater : later ≤ body.ExpiresAt) :
    (Handler.Download gcm (Handler.Upload gcm s req now nowSave uuid rnd).1 body.Token later
      false).2 = .data 200 req.contentType req.fileData := by
  obtain ⟨c, k, henc, hsave, hstate, htok, hexp⟩ :=
    upload_ok gcm s req now nowSave uuid rnd body hup
  obtain ⟨hidx, hblob⟩ := saveFile_ok s c (uploadMetadata req now k) nowSave uuid hsave
  have hrec := saveFile_record s c (uploadMetadata req now k) nowSave uuid
  have hid : savedID (uploadMetadata req now k) uuid = uuid := by
    simp [savedID, uploadMetadata]
  rw [hid] at hidx
  have hdec : DecryptFile gcm c k = .ok req.fileData :=
    decrypt_of_encrypt gcm hgcm _ req.fileData k (encryptFile_ok gcm rnd _ c k henc).1 c
      (encryptFile_ok gcm rnd _ c k henc).2
  have hleft : 1 ≤ (uploadMetadata req now k).DownloadsLeft := by
    unfold uploadMetadata
    cases hd : req.downloadsAllowed with
    | none => simp
    | some n =>
      by_cases hn : n < 1
      · simp [hn]
      · simp only [hn, if_false]; omega
  rw [hstate, htok]
  have h := download_read_first gcm _ uuid _ later hidx
    (by rw [hrec]; rw [hexp] at hlater; exact hlater) (by rw [hrec]; exact hleft) c
    req.fileData hblob (by rw [hrec]; exact hdec)
  rw [h, hrec]
  rfl

/-! ## The index keeps its keys distinct -/

theorem mapDelete_nodup {β : Type} (k : String) {m : List (String × β)}
    (h : (mapKeys m).Nodup) : (mapKeys (mapDelete k m)).Nodup :=
  h.sublist (List.Sublist.map _ (List.filter_sublist m))

theorem not_mem_keys_mapDelete {β : Type} (k : String) (m : List (String × β)) :
    k ∉ mapKeys (mapDelete k m) := by
  intro hmem
  simp only [mapKeys, List.mem_map] at hmem
  obtain ⟨e, he, hek⟩ := hmem
  have := (List.mem_filter.mp he).2
  simp [hek] at this

theorem mapSet_nodup {β : Type} (k : String) (v : β) {m : List (String × β)}
    (h : (mapKeys m).Nodup) : (mapKeys (mapSet k v m)).Nodup := by
  show (k :: mapKeys (mapDelete k m)).Nodup
  exact List.nodup_cons.mpr ⟨not_mem_keys_mapDelete k m, mapDelete_nodup k h⟩

theorem deleteFile_wf (s : Storage) (id : String) (h : s.WF) : (s.deleteFile id).1.WF := by
  unfold Storage.WF at h ⊢
  rcases deleteFile_files s id with hf | hf
  · rw [hf]; exact h
  · rw [hf]; exact mapDelete_nodup id h

/-- Every operation keeps the keys of the index distinct. -/
theorem step_wf (s : Storage) (op : Op) (h : s.WF) : (s.step op).1.WF := by
  cases op with
  | saveFile data metadata now uuid =>
    simp only [Storage.step]
    unfold Storage.WF at h ⊢
    rcases saveFile_files s data metadata now uuid with hf | hf
    · rw [hf]; exact h
    · rw [hf]; exact mapSet_nodup _ _ h
  | getFile id now =>
    simp only [Storage.step]
    unfold Storage.WF at h ⊢
    rcases getFile_files s id now with hf | hf | ⟨md, _, _, _, hf⟩
    · rw [hf]; exact h
    · rw [hf]; exact mapDelete_nodup id h
    · rw [hf]; exact mapSet_nodup _ _ h
  | getFileMetadata id => exact h
  | cleanupExpired now => exact cleanupExpired_preserves Storage.WF deleteFile_wf s now h
  | deferred id =>
    exact runDeferred_preserves Storage.WF deleteFile_wf (fun _ _ hp => hp) s id h

/-- Every state reached from the storage `NewStorage` returns holds each key once. -/
theorem reachable_wf (basePath : String) (disk : Disk) :
    ∀ ops : List Op, ((NewStorage basePath disk).run ops).1.WF := by
  have key : ∀ (ops : List Op) (s : Storage), s.WF → (s.run ops).1.WF := by
    intro ops
    induction ops with
    | nil => intro s h; exact h
    | cons op rest ih => intro s h; exact ih _ (step_wf s op h)
  intro ops
  exact key ops _ (by simp [NewStorage, Storage.WF, mapKeys])

/-! ## Eviction when the blob cannot be removed -/

/-- C11, as stated, fails: when the removal of the blob is refused, `deleteFile` returns the
error and the ID stays in the index, and so it does after the eviction paths of `GetFile`
(after the deadline) and of `CleanupExpired`. -/
theorem deleteFile_failure_keeps_record :
    mapGet "tok" stuckStorage.files = some onceStored ∧
    (stuckStorage.deleteFile "tok").2 =
      some "failed to delete file: remove /data/tok: permission denied" ∧
    mapGet "tok" (stuckStorage.deleteFile "tok").1.files = some onceStored ∧
    (stuckStorage.GetFile "tok" 101).2 = .error "file has expired" ∧
    mapGet "tok" (stuckStorage.GetFile "tok" 101).1.files = some onceStored ∧
    mapGet "tok" (stuckStorage.CleanupExpired 101).1.files = some onceStored := by
  decide

/-- C11, amended. For every stored ID, `deleteFile` removes the ID from the index and returns
no error when the removal of the blob succeeds or the blob is already absent; when the removal
fails with another error, `deleteFile` returns an error and leaves the index and the disk as
they were, so the record stays stored. The eviction paths of `GetFile` leave the state that
`deleteFile` leaves, and a sweep that returns no error, on an index with distinct keys, leaves
every expired or exhausted ID absent. -/
theorem deleteFile_evicts_unless_removal_fails (s : Storage) (id : String) (md : FileMetadata)
    (hstored : mapGet id s.files = some md) :
    (osRemove s.disk md.FilePath ≠ .error .permission →
      (s.deleteFile id).2 = none ∧ mapGet id (s.deleteFile id).1.files = none) ∧
    (osRemove s.disk md.FilePath = .error .permission →
      (s.deleteFile id).2 ≠ none ∧ (s.deleteFile id).1 = s ∧
      mapGet id (s.deleteFile id).1.files = some md) ∧
    (∀ now, md.ExpiresAt < now ∨ md.DownloadsLeft ≤ 0 →
      (s.GetFile id now).1 = (s.deleteFile id).1) ∧
    (∀ now, md.ExpiresAt < now ∨ md.DownloadsLeft ≤ 0 → s.WF →
      (s.CleanupExpired now).2 = none → mapGet id (s.CleanupExpired now).1.files = none) := by
  have hdelete : (osRemove s.disk md.FilePath ≠ .error .permission →
        (s.deleteFile id).2 = none ∧ mapGet id (s.deleteFile id).1.files = none) ∧
      (osRemove s.disk md.FilePath = .error .permission →
        (s.deleteFile id).2 ≠ none ∧ (s.deleteFile id).1 = s ∧
        mapGet id (s.deleteFile id).1.files = some md) := by
    rcases deleteFile_cases s id with
      ⟨hg, _⟩ | ⟨m, hg, hr, hd⟩ | ⟨m, hg, hr, hd⟩ | ⟨m, d, hg, hr, hd⟩
    · rw [hstored] at hg; cases hg
    · have hm : m = md := Option.some.inj (hg.symm.trans hstored)
      subst hm
      refine ⟨fun _ => ?_, fun hperm => ?_⟩
      · rw [hd]; exact ⟨rfl, mapGet_mapDelete_self _ _⟩
      · rw [hr] at hperm; cases hperm
    · have hm : m = md := Option.some.inj (hg.symm.trans hstored)
      subst hm
      refine ⟨fun hne => absurd hr hne, fun _ => ?_⟩
      rw [hd]
      exact ⟨by simp, rfl, hstored⟩
    · have hm : m = md := Option.some.inj (hg.symm.trans hstored)
      subst hm
      refine ⟨fun _ => ?_, fun hperm => ?_⟩
      · rw [hd]; exact ⟨rfl, mapGet_mapDelete_self _ _⟩
      · rw [hr] at hperm; cases hperm
  refine ⟨hdelete.1, hdelete.2, fun now hdead => ?_, fun now hdead hwf hok => ?_⟩
  · by_cases hexp : md.ExpiresAt < now
    · rw [getFile_expired s id now md hstored hexp]
    · have hz : md.DownloadsLeft ≤ 0 := hdead.resolve_left hexp
      rw [getFile_exhausted s id now md hstored (not_lt.mp hexp) hz]
  · have hnd : (mapKeys ([] ++ s.files)).Nodup := by simpa using hwf
    have hfiles : (s.CleanupExpired now).1.files =
        s.files.filter (fun e => !sweepable now e.2) := by
      simpa using (cleanup_fold_exact now s.files [] (s, none) rfl hnd hok).1
    have hsw : sweepable now md = true := by simpa [sweepable] using hdead
    rw [hfiles, mapGet_filter (fun m => !sweepable now m) id s.files hwf, hstored]
    simp [Option.filter, hsw]

theorem deleteFile_evicts_unless_removal_fails_witness :
    (mapGet "tok" onceStorage.files = some onceStored ∧
      osRemove onceStorage.disk onceStored.FilePath ≠ .error .permission ∧
      mapGet "tok" stuckStorage.files = some onceStored ∧
      osRemove stuckStorage.disk onceStored.FilePath = .error .permission) ∧
    mapGet "tok" (onceStorage.deleteFile "tok").1.files = none ∧
    (stuckStorage.deleteFile "tok").1 = stuckStorage :=
  ⟨⟨by decide, by decide, by decide, by decide⟩,
    ((deleteFile_evicts_unless_removal_fails onceStorage "tok" onceStored (by decide)).1
      (by decide)).2,
    ((deleteFile_evicts_unless_removal_fails stuckStorage "tok" onceStored (by decide)).2.1
      (by decide)).2.1⟩

/-! ## A failed upload -/

/-- C12. When `SaveFile` returns an error (the write of the blob failed), the state it leaves,
index and disk, is the state before the call: no entry for the new ID and no entry changed. -/
theorem saveFile_failure_keeps_index (s : Storage) (data : Bytes) (metadata : FileMetadata)
    (now : Int) (uuid : String) (herr : (s.SaveFile data metadata now uuid).2.2 ≠ none) :
    (s.SaveFile data metadata now uuid).1 = s ∧
    (s.SaveFile data metadata now uuid).1.files = s.files ∧
    ∀ id, mapGet id (s.SaveFile data metadata now uuid).1.files = mapGet id s.files := by
  have hstate : (s.SaveFile data metadata now uuid).1 = s := by
    unfold Storage.SaveFile at herr ⊢
    by_cases hid : metadata.ID = ""
    · simp only [hid, if_true] at herr ⊢
      cases hw : osWriteFile s.disk (filepathJoin s.basePath uuid) data with
      | error err => rfl
      | ok d => simp [hw] at herr
    · simp only [hid, if_false] at herr ⊢
      cases hw : osWriteFile s.disk (filepathJoin s.basePath metadata.ID) data with
      | error err => rfl
      | ok d => simp [hw] at herr
  exact ⟨hstate, by rw [hstate], fun id => by rw [hstate]⟩

theorem saveFile_failure_keeps_index_witness :
    ((NewStorage "/data" lockedDisk).SaveFile helloPayload onceRecord 10 "u-1").2.2 ≠ none ∧
    ((NewStorage "/data" lockedDisk).SaveFile helloPayload onceRecord 10 "u-1").1 =
      NewStorage "/data" lockedDisk :=
  ⟨by decide,
    (saveFile_failure_keeps_index (NewStorage "/data" lockedDisk) helloPayload onceRecord 10
      "u-1" (by decide)).1⟩

/-! ## The status lookup -/

/-- C13. The lookup `GetFileMetadata` leaves the state as it is, counters included; it fails
with "file not found" exactly when the ID is absent; otherwise it returns the stored record,
at every clock value, also one after the deadline of the record. -/
theorem getFileMetadata_read_only (s : Storage) (id : String) :
    (s.step (.getFileMetadata id)).1 = s ∧
    (s.GetFileMetadata id = .error "file not found" ↔ mapGet id s.files = none) ∧
    (∀ md, mapGet id s.files = some md → s.GetFileMetadata id = .ok md) ∧
    (∀ md now, mapGet id s.files = some md → md.ExpiresAt < now →
      s.GetFileMetadata id = .ok md ∧
      (s.step (.getFileMetadata id)).2 = .metadata (.ok md)) := by
  refine ⟨rfl, ?_, ?_, ?_⟩
  · constructor
    · intro h
      cases hg : mapGet id s.files with
      | none => rfl
      | some md => simp [Storage.GetFileMetadata, hg] at h
    · intro h
      exact getFileMetadata_absent s id h
  · intro md h
    simp [Storage.GetFileMetadata, h]
  · intro md now h _
    simp [Storage.GetFileMetadata, Storage.step, h]

theorem getFileMetadata_read_only_witness :
    (mapGet "tok" onceStorage.files = some onceStored ∧ onceStored.ExpiresAt < 500) ∧
    onceStorage.GetFileMetadata "tok" = .ok onceStored :=
  ⟨⟨by decide, by decide⟩,
    ((getFileMetadata_read_only onceStorage "tok").2.2.2 onceStored 500 (by decide)
      (by decide)).1⟩

/-! ## The status output -/

/-- C14. The status output is a function of the name, `ExpiresAt`, `DownloadsLeft` and
`Message` only: two repositories whose files under an ID agree on these four fields give the
same `GetStatus`, and two storages whose records under a token agree on them give the same
`Status` response, whatever their encryption keys (and every other field) are. -/
theorem status_hides_encryption_key :
    (∀ (repo1 repo2 : FileRepository) (id : String) (f1 f2 : File),
      repo1.GetMetadata id = .ok f1 → repo2.GetMetadata id = .ok f2 →
      f1.Name = f2.Name → f1.ExpiresAt = f2.ExpiresAt → f1.DownloadsLeft = f2.DownloadsLeft →
      f1.Message = f2.Message →
      fileService.GetStatus repo1 id = fileService.GetStatus repo2 id) ∧
    (∀ (s1 s2 : Storage) (token : String) (m1 m2 : FileMetadata),
      mapGet token s1.files = some m1 → mapGet token s2.files = some m2 →
      sameStatusFields m1 m2 → Handler.Status s1 token = Handler.Status s2 token) ∧
    (∀ (s : Storage) (token : String) (md : FileMetadata) (key : Bytes),
      mapGet token s.files = some md →
      Handler.Status { s with files := mapSet token { md with EncryptionKey := key } s.files }
        token = Handler.Status s token) := by
  refine ⟨?_, ?_, ?_⟩
  · intro repo1 repo2 id f1 f2 h1 h2 hn he hd hm
    simp [fileService.GetStatus, h1, h2, hn, he, hd, hm]
  · intro s1 s2 token m1 m2 h1 h2 hsame
    obtain ⟨hn, he, hd, hm⟩ := hsame
    simp [Handler.Status, Storage.GetFileMetadata, h1, h2, hn, he, hd, hm]
  · intro s token md key h
    simp [Handler.Status, Storage.GetFileMetadata, h, mapGet_mapSet_self]

theorem status_hides_encryption_key_witness :
    (mapGet "tok" onceStorage.files = some onceStored ∧
      mapGet "tok" rekeyedStorage.files = some { onceStored with EncryptionKey := [1, 2, 3] } ∧
      sameStatusFields onceStored { onceStored with EncryptionKey := [1, 2, 3] }) ∧
    Handler.Status onceStorage "tok" = Handler.Status rekeyedStorage "tok" ∧
    Handler.Status onceStorage "tok" = .status 200 "hello.txt" 100 1 "hi" :=
  ⟨⟨by decide, by decide, ⟨rfl, rfl, rfl, rfl⟩⟩,
    status_hides_encryption_key.2.1 onceStorage rekeyedStorage "tok" onceStored
      { onceStored with EncryptionKey := [1, 2, 3] } (by decide) (by decide)
      ⟨rfl, rfl, rfl, rfl⟩,
    by decide⟩

/-! ## A successful upload -/

/-- C15. When the write of the blob succeeds and the generated identifier is not empty,
`SaveFile` keeps a non-empty ID of the caller and assigns the generated one otherwise, so the
ID is never empty; it stamps `CreatedAt`; `GetFileMetadata` on that ID then succeeds and
returns the record with the `FileName`, `DownloadsLeft`, `ExpiresAt`, `Message`,
`ContentType`, `FileSize` and `EncryptionKey` that were passed in; and `ReadFile` of that
record returns the saved data. -/
theorem saveFile_stores_record (s : Storage) (data : Bytes) (metadata : FileMetadata)
    (now : Int) (uuid : String) (hok : (s.SaveFile data metadata now uuid).2.2 = none)
    (huuid : uuid ≠ "") :
    (s.SaveFile data metadata now uuid).2.1.ID ≠ "" ∧
    (metadata.ID ≠ "" → (s.SaveFile data metadata now uuid).2.1.ID = metadata.ID) ∧
    (metadata.ID = "" → (s.SaveFile data metadata now uuid).2.1.ID = uuid) ∧
    (s.SaveFile data metadata now uuid).2.1.CreatedAt = now ∧
    (s.SaveFile data metadata now uuid).1.GetFileMetadata
      (s.SaveFile data metadata now uuid).2.1.ID =
      .ok { metadata with ID := (s.SaveFile data metadata now uuid).2.1.ID,
                          FilePath := (s.SaveFile data metadata now uuid).2.1.FilePath,
                          CreatedAt := now } ∧
    (s.SaveFile data metadata now uuid).1.ReadFile (s.SaveFile data metadata now uuid).2.1 =
      .ok data := by
  obtain ⟨hidx, hblob⟩ := saveFile_ok s data metadata now uuid hok
  have hrec := saveFile_record s data metadata now uuid
  have hid : (s.SaveFile data metadata now uuid).2.1.ID = savedID metadata uuid := by
    rw [hrec]
  refine ⟨?_, ?_, ?_, ?_, ?_, ?_⟩
  · rw [hid]
    unfold savedID
    by_cases h : metadata.ID = ""
    · rw [if_pos h]; exact huuid
    · rw [if_neg h]; exact h
  · intro h
    rw [hid]; unfold savedID; rw [if_neg h]
  · intro h
    rw [hid]; unfold savedID; rw [if_pos h]
  · rw [hrec]
  · rw [hid]
    unfold Storage.GetFileMetadata
    rw [hidx]
    show Except.ok (s.SaveFile data metadata now uuid).2.1 = _
    rw [hrec]
  · unfold Storage.ReadFile osReadFile
    rw [hblob]

theorem saveFile_stores_record_witness :
    (((NewStorage "/data" emptyDisk).SaveFile helloPayload onceRecord 10 "u-1").2.2 = none ∧
      "u-1" ≠ "") ∧
    ((NewStorage "/data" emptyDisk).SaveFile helloPayload onceRecord 10 "u-1").1.ReadFile
      ((NewStorage "/data" emptyDisk).SaveFile helloPayload onceRecord 10 "u-1").2.1 =
      .ok helloPayload ∧
    (((NewStorage "/data" emptyDisk).SaveFile helloPayload { onceRecord with ID := "" } 10
      "u-1").2.2 = none ∧ ({ onceRecord with ID := "" } : FileMetadata).ID = "") ∧
    ((NewStorage "/data" emptyDisk).SaveFile helloPayload { onceRecord with ID := "" } 10
      "u-1").2.1.ID = "u-1" :=
  ⟨⟨by decide, by decide⟩,
    (saveFile_stores_record (NewStorage "/data" emptyDisk) helloPayload onceRecord 10 "u-1"
      (by decide) (by decide)).2.2.2.2.2,
    ⟨by decide, rfl⟩,
    (saveFile_stores_record (NewStorage "/data" emptyDisk) helloPayload
      { onceRecord with ID := "" } 10 "u-1" (by decide) (by decide)).2.2.1 rfl⟩

/-! ## The sweep run twice -/

/-- A sweep over entries none of which is expired or exhausted changes nothing. -/
theorem cleanup_fold_kept (now : Int) :
    ∀ (entries : List (String × FileMetadata)) (acc : Storage × Option String),
      (∀ e ∈ entries, ¬ sweepable now e.2 = true) →
      entries.foldl (Storage.cleanupStep now) acc = acc := by
  intro entries
  induction entries with
  | nil => intro acc _; rfl
  | cons entry rest ih =>
    intro acc h
    rw [List.foldl_cons, cleanupStep_kept now acc entry (h entry (List.mem_cons_self _ _))]
    exact ih acc (fun e he => h e (List.mem_cons_of_mem _ he))

/-- C16. For an index with distinct keys, when a sweep at clock value `now` meets no deletion
error, a second sweep at the same clock value evicts no record: it returns no error and
leaves the state, index and disk, exactly as the first sweep left it. -/
theorem cleanupExpired_idempotent (s : Storage) (now : Int) (hwf : s.WF)
    (hok : (s.CleanupExpired now).2 = none) :
    (s.CleanupExpired now).1.CleanupExpired now = ((s.CleanupExpired now).1, none) ∧
    ((s.CleanupExpired now).1.CleanupExpired now).1.files = (s.CleanupExpired now).1.files := by
  have hnd : (mapKeys ([] ++ s.files)).Nodup := by simpa using hwf
  have hfiles : (s.CleanupExpired now).1.files =
      s.files.filter (fun e => !sweepable now e.2) := by
    simpa using (cleanup_fold_exact now s.files [] (s, none) rfl hnd hok).1
  have hkept : ∀ e ∈ (s.CleanupExpired now).1.files, ¬ sweepable now e.2 = true := by
    intro e he
    rw [hfiles] at he
    simpa using (List.mem_filter.mp he).2
  have hsecond : (s.CleanupExpired now).1.CleanupExpired now =
      ((s.CleanupExpired now).1, none) :=
    cleanup_fold_kept now _ _ hkept
  exact ⟨hsecond, by rw [hsecond]⟩

theorem cleanupExpired_idempotent_witness :
    (twoStorage.WF ∧ (twoStorage.CleanupExpired 50).2 = none) ∧
    (twoStorage.CleanupExpired 50).1 ≠ twoStorage ∧
    (twoStorage.CleanupExpired 50).1.CleanupExpired 50 = ((twoStorage.CleanupExpired 50).1, none) :=
  ⟨⟨by decide, by decide⟩, by decide,
    (cleanupExpired_idempotent twoStorage 50 (by decide) (by decide)).1⟩

/-! ## Keys of the wrong size -/

/-- C17. With a key whose length is not `KeySize` (32 bytes), `Encrypt` and `Decrypt` both fail
with `ErrInvalidKeySize`, whatever the payload, the ciphertext and the entropy are; with a key
of 32 bytes neither returns `ErrInvalidKeySize`. -/
theorem invalid_key_size_rejected (gcm : GCM) (rnd data key : Bytes) :
    (key.length ≠ KeySize →
      Encrypt gcm rnd data key = .error ErrInvalidKeySize ∧
      Decrypt gcm data key = .error ErrInvalidKeySize) ∧
    (key.length = KeySize →
      Encrypt gcm rnd data key ≠ .error ErrInvalidKeySize ∧
      Decrypt gcm data key ≠ .error ErrInvalidKeySize) := by
  constructor
  · intro hk
    simp [Encrypt, Decrypt, hk]
  · intro hk
    have hne1 : ErrEncryption ≠ ErrInvalidKeySize := by decide
    have hne2 : ErrDecryption ≠ ErrInvalidKeySize := by decide
    constructor
    · rw [encrypt_keySize gcm rnd data key hk]
      cases readFull rnd NonceSize with
      | none => exact fun h => hne1 (Except.error.inj h)
      | some nonce => exact fun h => by cases h
    · unfold Decrypt
      simp only [hk, ne_eq, not_true_eq_false, if_false, aesNewCipher_keySize hk, cipherNewGCM]
      by_cases hlen : data.length < NonceSize
      · rw [if_pos hlen]; exact fun h => hne2 (Except.error.inj h)
      · rw [if_neg hlen]
        cases gcm.Open key (data.take NonceSize) (data.drop NonceSize) with
        | none => exact fun h => hne2 (Except.error.inj h)
        | some plaintext => exact fun h => by cases h

theorem invalid_key_size_rejected_witness :
    ((List.replicate 31 (9 : UInt8)).length ≠ KeySize ∧ sampleKey.length = KeySize) ∧
    Encrypt tagGCM sampleEntropy helloPayload (List.replicate 31 9) = .error ErrInvalidKeySize ∧
    Decrypt tagGCM helloPayload sampleKey ≠ .error ErrInvalidKeySize :=
  ⟨⟨by decide, by decide⟩,
    ((invalid_key_size_rejected tagGCM sampleEntropy helloPayload (List.replicate 31 9)).1
      (by decide)).1,
    ((invalid_key_size_rejected tagGCM sampleEntropy helloPayload sampleKey).2
      (by decide)).2⟩

/-! ## Starting and stopping the cleanup service -/

/-- With a positive interval, in every state the calls reach no routine has panicked, and one
cleanup routine is live when the service is running and none when it is not. -/
theorem service_run_invariant :
    ∀ (cmds : List Command) (s : Service), 0 < s.interval → s.panicked = false →
      s.routines = (if s.isRunning then 1 else 0) →
      ∃ t, s.run cmds = some t ∧ t.interval = s.interval ∧ t.panicked = false ∧
        t.routines = (if t.isRunning then 1 else 0) := by
  intro cmds
  induction cmds with
  | nil => intro s _ hp h; exact ⟨s, rfl, rfl, hp, h⟩
  | cons cmd rest ih =>
    intro s hpos hp h
    have htick : newTickerPanics s.interval = false := by
      simp [newTickerPanics, hpos]
    cases cmd with
    | start =>
      have hstart : s.Start.interval = s.interval ∧ s.Start.panicked = false ∧
          s.Start.routines = (if s.Start.isRunning then 1 else 0) := by
        unfold Service.Start
        cases hr : s.isRunning with
        | true => simp [hr] at h ⊢; exact ⟨hp, h⟩
        | false => simp [hr, htick] at h ⊢; exact ⟨hp, h⟩
      obtain ⟨hi, hnp, hinv⟩ := hstart
      obtain ⟨t, hrun, hti, htp, htr⟩ := ih s.Start (by rw [hi]; exact hpos) hnp hinv
      refine ⟨t, ?_, by rw [hti, hi], htp, htr⟩
      simp only [Service.run, hnp]
      exact hrun
    | stop =>
      cases hr : s.isRunning with
      | true =>
        have h1 : s.routines = 1 := by simpa [hr] using h
        have hstop : s.Stop = some { s with isRunning := false, routines := s.routines - 1 } := by
          simp [Service.Stop, hr, h1]
        simp only [Service.run, hstop]
        exact ih _ hpos hp (by simp [h1])
      | false =>
        have hstop : s.Stop = some s := by simp [Service.Stop, hr]
        simp only [Service.run, hstop]
        exact ih s hpos hp h

/-- With an interval that is not positive, the routine `Start` launches panics in
`time.NewTicker`: no routine waits on `stopChan`, a `Stop` after it would not return, and the
run ends with the process. -/
theorem start_without_ticker (interval : Int) (hneg : interval ≤ 0) :
    (NewService interval).Start.isRunning = true ∧
    (NewService interval).Start.panicked = true ∧
    (NewService interval).Start.routines = 0 ∧
    (NewService interval).Start.Stop = none ∧
    ∀ rest, (NewService interval).run (.start :: rest) = none := by
  have htick : newTickerPanics interval = true := by simp [newTickerPanics, hneg]
  have hstart : (NewService interval).Start =
      { interval := interval, isRunning := true, routines := 0, panicked := true } := by
    simp [Service.Start, NewService, htick]
  refine ⟨by rw [hstart], by rw [hstart], by rw [hstart], by rw [hstart]; rfl, fun rest => ?_⟩
  simp [Service.run, hstart]

/-- C18. For a service with a positive interval, in every state `t` that calls of `Start` and
`Stop` reach from a new service (every such call returns and no routine panics): `Start`
leaves the service running with one cleanup routine; `Start` on the running service changes
nothing, so no second routine is started; `Stop` returns and leaves the service not running
with no routine; `Stop` on the stopped service returns and changes nothing. -/
theorem start_stop_idempotent (interval : Int) (hpos : 0 < interval) (cmds : List Command) :
    ∃ t, (NewService interval).run cmds = some t ∧ t.panicked = false ∧
      t.Start.isRunning = true ∧ t.Start.routines = 1 ∧ t.Start.panicked = false ∧
      t.Start.Start = t.Start ∧
      (t.isRunning = true → t.Start = t) ∧
      (∃ u, t.Stop = some u ∧ u.isRunning = false ∧ u.routines = 0 ∧ u.Stop = some u) ∧
      (t.isRunning = false → t.Stop = some t) := by
  obtain ⟨t, hrun, hint, hnp, hinv⟩ :=
    service_run_invariant cmds (NewService interval) hpos rfl rfl
  have hti : 0 < t.interval := by rw [hint]; exact hpos
  have htick : newTickerPanics t.interval = false := by simp [newTickerPanics, hti]
  refine ⟨t, hrun, hnp, ?_⟩
  cases hr : t.isRunning with
  | true =>
    have h1 : t.routines = 1 := by simpa [hr] using hinv
    refine ⟨by simp [Service.Start, hr], by simp [Service.Start, hr, h1],
      by simp [Service.Start, hr, hnp], by simp [Service.Start, hr],
      (fun _ => by simp [Service.Start, hr]), ?_, (fun h => Bool.noConfusion h)⟩
    exact ⟨{ t with isRunning := false, routines := t.routines - 1 },
      by simp [Service.Stop, hr, h1], rfl, by simp [h1], by simp [Service.Stop]⟩
  | false =>
    have h0 : t.routines = 0 := by simpa [hr] using hinv
    refine ⟨by simp [Service.Start, hr, htick], by simp [Service.Start, hr, htick, h0],
      by simp [Service.Start, hr, htick, hnp], by simp [Service.Start, hr, htick],
      (fun h => Bool.noConfusion h), ?_, (fun _ => by simp [Service.Stop, hr])⟩
    exact ⟨t, by simp [Service.Stop, hr], hr, h0, by simp [Service.Stop, hr]⟩

theorem start_stop_idempotent_witness :
    (0 : Int) < 60 ∧
    (NewService 60).run [.start, .start, .stop, .stop] = some (NewService 60) ∧
    (NewService 60).run [.start, .start] =
      some { interval := 60, isRunning := true, routines := 1, panicked := false } ∧
    ∃ t, (NewService 60).run [.start, .start] = some t ∧ t.Start.Start = t.Start :=
  ⟨by decide, by decide, by decide,
    (start_stop_idempotent 60 (by decide) [.start, .start]).imp
      (fun _ h => ⟨h.1, h.2.2.2.2.2.1⟩)⟩

end ShreadBox
